import Mathlib

/-!
# mount(1): mount orchestration and /etc/mtab bookkeeping

A shallow embedding of `commands/mount/mount.c`.

* C strings are lists of characters (the bytes before the terminating NUL);
  a `char *` that may be `NULL` is an `Option`.
* The collaborators that live outside `mount.c` (the `mount` call, `fsversion`,
  `realpath`, header constants) are fields of `Env`; a collaborator answers a call
  by its arguments.
* Everything the program can change is a field of `World`: the global
  `write_mtab`, the mount-table store, the calls made so far (`trace`) and the
  two output streams.
* The fstab is the list of the entries that the successive calls of `getfsent`
  return, in that order.
* A function that can end the process returns a `Res`.
-/

namespace Mount

/-- A C string: the characters before the terminating NUL. -/
abbrev CStr := List Char

/-- One row of the mount table: the four strings that `get_mtab_entry` fills in and
`put_mtab_entry` takes. -/
structure MtabEntry where
  special : CStr
  mounted_on : CStr
  version : CStr
  rw_flag : CStr
deriving DecidableEq, Repr

/-- The fields of `struct fstab` that `mount_all` reads. -/
structure fstab where
  fs_spec : CStr
  fs_file : CStr
  fs_vfstype : CStr
  fs_mntops : CStr
deriving DecidableEq, Repr

/-- Calls to the collaborators that act on the system, in the order they are made. -/
inductive Event where
  | fsversion (dev : CStr)
  | mount (special : Option CStr) (name : CStr) (mountflags : Nat)
      (type : Option CStr) (args : Option CStr)
  | load_mtab
  | put_mtab_entry (e : MtabEntry)
  | rewrite_mtab
deriving DecidableEq, Repr

/-- How a function of the program ends. -/
inductive Res (α : Type) where
  /-- the function returned `a` to its caller -/
  | ret (a : α)
  /-- the process ended inside the function, in `exit(status)` -/
  | exit (status : Int)
  /-- the function did something C leaves undefined (a `NULL` passed to `strcmp`) -/
  | undef
  /-- the model ran out of fuel -/
  | nofuel
deriving DecidableEq, Repr

/-- Header constants and collaborators that `mount.c` uses and does not define. -/
structure Env where
  /-- the constant `MS_RDONLY` of `<sys/mount.h>` -/
  MS_RDONLY : Nat
  /-- the constant `FSVERSION_MFS1` of `<minix/minlib.h>` -/
  FSVERSION_MFS1 : Int
  /-- the constant `FSVERSION_MFS2` of `<minix/minlib.h>` -/
  FSVERSION_MFS2 : Int
  /-- the constant `FSVERSION_MFS3` of `<minix/minlib.h>` -/
  FSVERSION_MFS3 : Int
  /-- the constant `FSVERSION_EXT2` of `<minix/minlib.h>` -/
  FSVERSION_EXT2 : Int
  /-- what `fsversion(dev, "mount")` returns -/
  fsversion : CStr → Int
  /-- what `mount(special, name, mountflags, type, args)` returns -/
  mount : Option CStr → CStr → Nat → Option CStr → Option CStr → Int
  /-- the text `strerror(errno)` gives after that call has failed -/
  mount_error : Option CStr → CStr → Nat → Option CStr → Option CStr → CStr
  /-- what `realpath(path, buf)` leaves in `buf`, `none` when it returns `NULL` -/
  realpath : CStr → Option CStr

/-- The state of the process and of the files it touches. -/
structure World where
  /-- the global `static int write_mtab` -/
  write_mtab : Int
  /-- the persisted mount table -/
  mtab : List MtabEntry
  /-- whether the persisted table can be read -/
  readable : Bool
  /-- whether the persisted table can be replaced -/
  writable : Bool
  /-- how many entries the pending output buffer holds at most -/
  capacity : Nat
  /-- the entries of the loaded working buffer that are still to be read -/
  inbuf : List MtabEntry
  /-- the pending output buffer -/
  outbuf : List MtabEntry
  /-- the calls made so far -/
  trace : List Event
  /-- what was written to standard output, one item per `printf` -/
  stdout : List CStr
  /-- what was written to standard error, one item per call -/
  stderr : List CStr
deriving DecidableEq, Repr

def MINIX_FS_TYPE : CStr := "mfs".toList

def EXIT_SUCCESS : Int := 0

def EXIT_FAILURE : Int := 1

/-- The call `printf(...)`: one formatted string goes to standard output. -/
def printf (s : CStr) (w : World) : World :=
  { w with stdout := w.stdout ++ [s] }

/-- The calls `fprintf(stderr, ...)` and `std_err(...)`: one string goes to standard
error. -/
def std_err (s : CStr) (w : World) : World :=
  { w with stderr := w.stderr ++ [s] }

/-- The call `strtok(s, delim)` on the string that is left to scan: skip the leading delimiters,
return `none` (for `NULL`) when nothing is left, otherwise the token up to the next
delimiter together with what follows that delimiter (where the next call resumes). -/
def strtok (s delim : CStr) : Option (CStr × CStr) :=
  match s.dropWhile (fun c => decide (c ∈ delim)) with
  | [] => none
  | c :: cs =>
    some ((c :: cs).takeWhile (fun x => !decide (x ∈ delim)),
          ((c :: cs).dropWhile (fun x => !decide (x ∈ delim))).drop 1)

/-- The `for` loop of `has_opt`: `rest` is what `strtok` has still to scan. -/
def has_opt_loop (option : CStr) : Nat → CStr → Int → Option Int
  | 0, _, _ => none
  | fuel + 1, rest, found =>
    match strtok rest [','] with
    | none => some found
    | some (opt, rest1) =>
      has_opt_loop option fuel rest1 (if opt = option then 1 else found)

/-- The function `has_opt(mntopts, option)`; `none` only if the loop ran out of fuel
(`strdup` is taken to succeed). -/
def has_opt (mntopts option : CStr) : Option Int :=
  has_opt_loop option (mntopts.length + 1) mntopts 0

/-- Modelled from the spec: `load_mtab` is missing from the sources. It is the `open`
of the store: it loads the current table into the working buffer and fails (a negative
result) if the underlying storage cannot be read; a load starts a fresh pending output
buffer. -/
def load_mtab (w : World) : Int × World :=
  let w1 := { w with trace := w.trace ++ [Event.load_mtab] }
  if w1.readable then (0, { w1 with inbuf := w1.mtab, outbuf := [] }) else (-1, w1)

/-- Modelled from the spec: `get_mtab_entry` is missing from the sources. It is the
`next_entry` of the store: it yields the entries of the loaded working buffer in file order,
and `none` (a negative result) at the end of the table. -/
def get_mtab_entry (w : World) : Option MtabEntry × World :=
  match w.inbuf with
  | [] => (none, w)
  | e :: es => (some e, { w with inbuf := es })

/-- Modelled from the spec: `put_mtab_entry` is missing from the sources. It is the
`stage_entry` of the store: it appends the entry to the pending output buffer, and returns
overflow (a negative result) if the buffer would exceed the fixed capacity of the table. -/
def put_mtab_entry (e : MtabEntry) (w : World) : Int × World :=
  let w1 := { w with trace := w.trace ++ [Event.put_mtab_entry e] }
  if w1.outbuf.length + 1 > w1.capacity then (-1, w1)
  else (0, { w1 with outbuf := w1.outbuf ++ [e] })

/-- Modelled from the spec: `rewrite_mtab` is missing from the sources. It is the
`commit` of the store: it replaces the persisted table with the staged buffer contents as
a whole, or fails (a negative result) and leaves the persisted table as it was. -/
def rewrite_mtab (w : World) : Int × World :=
  let w1 := { w with trace := w.trace ++ [Event.rewrite_mtab] }
  if w1.writable then (0, { w1 with mtab := w1.outbuf }) else (-1, w1)

/-- The call `fsversion(dev, "mount")`. -/
def fsversion (env : Env) (dev : CStr) (w : World) : Int × World :=
  (env.fsversion dev, { w with trace := w.trace ++ [Event.fsversion dev] })

/-- The call `mount(special, name, mountflags, type, args)`. -/
def mount (env : Env) (special : Option CStr) (name : CStr) (mountflags : Nat)
    (type args : Option CStr) (w : World) : Int × World :=
  (env.mount special name mountflags type args,
   { w with trace := w.trace ++ [Event.mount special name mountflags type args] })

/-- The copying loop of `update_mtab` (lines 114-122). -/
def update_mtab_loop : Nat → World → Res Unit × World
  | 0, w => (Res.nofuel, w)
  | fuel + 1, w =>
    match get_mtab_entry w with
    | (none, w1) => (Res.ret (), w1)
    | (some e, w1) =>
      match put_mtab_entry e w1 with
      | (n, w2) =>
        if n < 0 then
          (Res.exit 1, std_err "mount: /etc/mtab has grown too large\n".toList w2)
        else update_mtab_loop fuel w2

/-- The function `update_mtab(dev, mountpoint, fstype, mountflags)`; `fstype` is `none`
for a `NULL` pointer, which `strcmp` must not be given. -/
def update_mtab (env : Env) (dev mountpoint : CStr) (fstype : Option CStr)
    (mountflags : Nat) (w : World) : Res Unit × World :=
  if w.write_mtab = 0 then (Res.ret (), w)
  else
    match load_mtab w with
    | (n, w1) =>
      if n < 0 then (Res.exit 1, w1)
      else
        match update_mtab_loop (w1.inbuf.length + 1) w1 with
        | (Res.ret _, w2) =>
          match fstype with
          | none => (Res.undef, w2)
          | some t =>
            let vs : CStr :=
              if t = MINIX_FS_TYPE then "MFSv3".toList
              else if t.length < 10 then t
              else "-".toList
            match put_mtab_entry
                ⟨dev, mountpoint, vs,
                  if mountflags &&& env.MS_RDONLY ≠ 0 then "ro".toList else "rw".toList⟩
                w2 with
            | (n, w3) =>
              if n < 0 then
                (Res.exit 1, std_err "mount: /etc/mtab has grown too large\n".toList w3)
              else
                match rewrite_mtab w3 with
                | (_, w4) => (Res.ret (), w4)
        | (r, w2) => (r, w2)

/-- The printing loop of `list` (lines 150-156). -/
def list_loop : Nat → World → Res Unit × World
  | 0, w => (Res.nofuel, w)
  | fuel + 1, w =>
    match get_mtab_entry w with
    | (none, w1) => (Res.ret (), w1)
    | (some e, w1) =>
      list_loop fuel
        (printf
          (e.special ++ " is read-".toList ++
            (if e.rw_flag = "rw".toList then "write".toList else "only".toList) ++
            " mounted on ".toList ++ e.mounted_on ++ " (type ".toList ++ e.version ++
            ")\n".toList)
          w1)

/-- The function `list()`: it never returns, the process ends in `exit`. -/
def list (w : World) : Res Unit × World :=
  match load_mtab w with
  | (n, w1) =>
    if n < 0 then (Res.exit 1, w1)
    else
      match list_loop (w1.inbuf.length + 1) w1 with
      | (Res.ret _, w2) => (Res.exit 0, w2)
      | (r, w2) => (r, w2)

/-- The diagnostic of a failed mount call. -/
def cant_mount (dev dir err : CStr) : CStr :=
  "mount: Can't mount ".toList ++ dev ++ " on ".toList ++ dir ++ ": ".toList ++ err ++
    "\n".toList

/-- The function `mount_all()`, the `while` loop over the entries that `getfsent` returns
(lines 183-220). -/
def mount_all (env : Env) : List fstab → World → Res Int × World
  | [], w => (Res.ret EXIT_SUCCESS, w)
  | fs :: rest, w =>
    match env.realpath fs.fs_file with
    | none =>
      (Res.ret EXIT_FAILURE,
        std_err ("Can't mount on ".toList ++ fs.fs_file ++ "\n".toList) w)
    | some mountpoint =>
      match has_opt fs.fs_mntops "noauto".toList with
      | none => (Res.nofuel, w)
      | some noauto =>
        if noauto ≠ 0 then mount_all env rest w
        else if mountpoint = "/".toList then mount_all env rest w
        else
          match has_opt fs.fs_mntops "ro".toList with
          | none => (Res.nofuel, w)
          | some has_ro =>
            let ro : Int := if has_ro ≠ 0 then 1 else 0
            let mountflags : Nat := if ro ≠ 0 then 0 ||| env.MS_RDONLY else 0
            let device : Option CStr :=
              if fs.fs_spec = "none".toList then none else some fs.fs_spec
            match mount env device mountpoint mountflags (some fs.fs_vfstype)
                (some fs.fs_mntops) w with
            | (r, w2) =>
              if r = 0 then
                match update_mtab env fs.fs_spec fs.fs_file (some fs.fs_vfstype)
                    mountflags w2 with
                | (Res.ret _, w3) => mount_all env rest w3
                | (Res.exit s, w3) => (Res.exit s, w3)
                | (Res.undef, w3) => (Res.undef, w3)
                | (Res.nofuel, w3) => (Res.nofuel, w3)
              else
                (Res.ret EXIT_FAILURE,
                  std_err
                    (cant_mount fs.fs_spec fs.fs_file
                      (env.mount_error device mountpoint mountflags (some fs.fs_vfstype)
                        (some fs.fs_mntops)))
                    w2)

/-- The function `usage()`. -/
def usage (w : World) : Res Int × World :=
  (Res.exit 1,
    std_err "Usage: mount [-a] [-r] [-e] [-t type] [-o options] special name\n".toList w)

/-- The function `main` from line 66 on, that is after the option loop: `all`, `mountflags`, `type`
and `args` are the locals as the loop left them, `argv` is `argv[1]`, `argv[2]`, ... as
the loop left them (the arguments that are not options), so `argc` is one more than
the length of `argv`. -/
def main (env : Env) (etc_fstab : List fstab) (all : Bool) (mountflags : Nat)
    (type args : Option CStr) (argv : List CStr) (w : World) : Res Int × World :=
  if all = false ∧ (argv.length + 1 ≠ 3 ∨ argv.head? = some []) then usage w
  else if all = true then mount_all env etc_fstab w
  else
    match argv with
    | [argv1, argv2] =>
      let device : Option CStr := if argv1 = "none".toList then none else some argv1
      let probe : Option CStr × World :=
        if (type = none ∨ type = some MINIX_FS_TYPE) ∧ device ≠ none then
          match fsversion env argv1 w with
          | (v, w1) =>
            if v = env.FSVERSION_MFS1 ∨ v = env.FSVERSION_MFS2 ∨ v = env.FSVERSION_MFS3 then
              (some MINIX_FS_TYPE, w1)
            else if v = env.FSVERSION_EXT2 then (some "ext2".toList, w1)
            else (type, w1)
        else (type, w)
      match probe with
      | (type1, w1) =>
        match mount env device argv2 mountflags type1 args w1 with
        | (r, w2) =>
          if r < 0 then
            (Res.ret EXIT_FAILURE,
              std_err
                (cant_mount argv1 argv2 (env.mount_error device argv2 mountflags type1 args))
                w2)
          else
            let w3 :=
              printf
                (argv1 ++ " is read-".toList ++
                  (if mountflags &&& env.MS_RDONLY ≠ 0 then "only".toList
                   else "write".toList) ++
                  " mounted on ".toList ++ argv2 ++ "\n".toList)
                w2
            match update_mtab env argv1 argv2 type1 mountflags w3 with
            | (Res.ret _, w4) => (Res.ret EXIT_SUCCESS, w4)
            | (Res.exit s, w4) => (Res.exit s, w4)
            | (Res.undef, w4) => (Res.undef, w4)
            | (Res.nofuel, w4) => (Res.nofuel, w4)
    | _ => (Res.undef, w)

/-! ## Reference notions used to state the properties -/

/-- The diagnostic of a full table. -/
def too_large : CStr := "mount: /etc/mtab has grown too large\n".toList

/-- The pieces of an option string when every comma is a delimiter; leading, trailing
and adjacent commas delimit empty pieces. -/
def comma_split : CStr → List CStr
  | [] => [[]]
  | c :: cs =>
    if c = ',' then [] :: comma_split cs
    else match comma_split cs with
      | [] => [[c]]
      | t :: ts => (c :: t) :: ts

/-- The non-empty pieces of the comma split. -/
def tokens (s : CStr) : List CStr := (comma_split s).filter (fun t => decide (t ≠ []))

/-- The row that `update_mtab` adds for a mount of type `t`. -/
def new_row (env : Env) (dev mountpoint t : CStr) (mountflags : Nat) : MtabEntry :=
  ⟨dev, mountpoint,
    if t = MINIX_FS_TYPE then "MFSv3".toList else if t.length < 10 then t else "-".toList,
    if mountflags &&& env.MS_RDONLY ≠ 0 then "ro".toList else "rw".toList⟩

/-- Whether an event is a call of `mount`. -/
def Event.isMount : Event → Bool
  | Event.mount _ _ _ _ _ => true
  | _ => false

/-- Whether an event is a call of `fsversion`. -/
def Event.isProbe : Event → Bool
  | Event.fsversion _ => true
  | _ => false

/-- The calls of `mount` in a trace, in order. -/
def mount_calls (tr : List Event) : List Event := tr.filter Event.isMount

/-- The calls of `fsversion` in a trace, in order. -/
def probe_calls (tr : List Event) : List Event := tr.filter Event.isProbe

/-- An fstab entry that the batch skips: its option string has the token `noauto`, or
its canonical mount point is the root. -/
def skipped (env : Env) (fs : fstab) : Bool :=
  decide ("noauto".toList ∈ comma_split fs.fs_mntops) ||
    decide (env.realpath fs.fs_file = some "/".toList)

/-- The entries of the fstab that the batch does not skip, in fstab order. -/
def attempted (env : Env) (table : List fstab) : List fstab :=
  table.filter (fun fs => !skipped env fs)

/-- The flags of a batch entry: read-only exactly when its option string has the token
`ro`. -/
def batch_flags (env : Env) (fs : fstab) : Nat :=
  if "ro".toList ∈ comma_split fs.fs_mntops then env.MS_RDONLY else 0

/-- The device of a batch entry as the mount call gets it: absent for `none`. -/
def batch_device (fs : fstab) : Option CStr :=
  if fs.fs_spec = "none".toList then none else some fs.fs_spec

/-- The mount call of a batch entry. -/
def batch_call (env : Env) (fs : fstab) : Event :=
  Event.mount (batch_device fs) ((env.realpath fs.fs_file).getD []) (batch_flags env fs)
    (some fs.fs_vfstype) (some fs.fs_mntops)

/-- The row recorded for a batch entry. -/
def batch_row (env : Env) (fs : fstab) : MtabEntry :=
  new_row env fs.fs_spec fs.fs_file fs.fs_vfstype (batch_flags env fs)

/-- The version tag as the specification derives it from the filesystem type. -/
def version_tag (t : CStr) : CStr :=
  if t = "mfs".toList then "MFSv3".toList else if t.length ≤ 9 then t else "-".toList

/-- The device that the single mount passes to the mount call. -/
def single_device (argv1 : CStr) : Option CStr :=
  if argv1 = "none".toList then none else some argv1

/-- Whether the single mount asks `fsversion` about the device. -/
def probed (type : Option CStr) (argv1 : CStr) : Bool :=
  decide ((type = none ∨ type = some MINIX_FS_TYPE) ∧ argv1 ≠ "none".toList)

/-- The type that the single mount passes to the mount call. -/
def resolved_type (env : Env) (type : Option CStr) (argv1 : CStr) : Option CStr :=
  if probed type argv1 = true then
    if env.fsversion argv1 = env.FSVERSION_MFS1 ∨ env.fsversion argv1 = env.FSVERSION_MFS2 ∨
        env.fsversion argv1 = env.FSVERSION_MFS3 then some MINIX_FS_TYPE
    else if env.fsversion argv1 = env.FSVERSION_EXT2 then some "ext2".toList
    else type
  else type

/-- The calls the single mount makes before it touches the mount table. -/
def single_calls (env : Env) (mountflags : Nat) (type args : Option CStr)
    (argv1 argv2 : CStr) : List Event :=
  (if probed type argv1 = true then [Event.fsversion argv1] else []) ++
    [Event.mount (single_device argv1) argv2 mountflags (resolved_type env type argv1) args]

/-- The line the single mount prints after a successful mount call. -/
def mounted_line (env : Env) (mountflags : Nat) (argv1 argv2 : CStr) : CStr :=
  argv1 ++ " is read-".toList ++
    (if mountflags &&& env.MS_RDONLY ≠ 0 then "only".toList else "write".toList) ++
    " mounted on ".toList ++ argv2 ++ "\n".toList

/-- The status with which the process ends when `main` returns, or the process exits,
as `r` says; `none` when `r` is neither. -/
def exit_status : Res Int → Option Int
  | Res.ret s => some s
  | Res.exit s => some s
  | Res.undef => none
  | Res.nofuel => none

/-! ## Sample data -/

/-- A sample environment: every mount call succeeds, every path is canonical, the probe
reports MFS version 3. -/
def sample_env : Env :=
  { MS_RDONLY := 1, FSVERSION_MFS1 := 1, FSVERSION_MFS2 := 2, FSVERSION_MFS3 := 3,
    FSVERSION_EXT2 := 65538, fsversion := fun _ => 3,
    mount := fun _ _ _ _ _ => 0, mount_error := fun _ _ _ _ _ => "EIO".toList,
    realpath := fun p => some p }

/-- A sample environment in which the mount call fails on the device `d2`. -/
def failing_env : Env :=
  { sample_env with
    mount := fun special _ _ _ _ => if special = some "d2".toList then -1 else 0 }

/-- A sample world: recording is on and the table holds the root file system. -/
def sample_world : World :=
  { write_mtab := 1,
    mtab := [⟨"/dev/c0d0p0".toList, "/".toList, "MFSv3".toList, "rw".toList⟩],
    readable := true, writable := true, capacity := 5,
    inbuf := [], outbuf := [], trace := [], stdout := [], stderr := [] }

/-- The sample world with a mount table that cannot be replaced. -/
def unwritable_world : World := { sample_world with writable := false }

/-- The sample world with a table store that holds one entry at most. -/
def full_world : World := { sample_world with capacity := 1 }

/-- The fstab of the batch skip scenario. -/
def scenario_table : List fstab :=
  [⟨"d1".toList, "/a".toList, "fsX".toList, "noauto".toList⟩,
   ⟨"d2".toList, "/".toList, "fsX".toList, []⟩,
   ⟨"d3".toList, "/b".toList, "fsX".toList, "ro".toList⟩]

/-- Whether an event is a call of the mount-table store. -/
def Event.isStore : Event → Bool
  | Event.load_mtab => true
  | Event.put_mtab_entry _ => true
  | Event.rewrite_mtab => true
  | _ => false

/-- The calls of the mount-table store in a trace, in order. -/
def store_calls (tr : List Event) : List Event := tr.filter Event.isStore

/-- The line that `list` prints for an entry of the mount table. -/
def list_line (e : MtabEntry) : CStr :=
  e.special ++ " is read-".toList ++
    (if e.rw_flag = "rw".toList then "write".toList else "only".toList) ++
    " mounted on ".toList ++ e.mounted_on ++ " (type ".toList ++ e.version ++ ")\n".toList

/-- The sample world with recording off, as after the option `-n`. -/
def silent_world : World := { sample_world with write_mtab := 0 }

/-- A sample environment in which every mount call fails. -/
def refusing_env : Env := { sample_env with mount := fun _ _ _ _ _ => -1 }

/-- A sample environment in which the probe reports a tag that `main` does not know. -/
def unknown_probe_env : Env := { sample_env with fsversion := fun _ => -1 }

/-- A sample environment in which `/gone` has no canonical form. -/
def dangling_env : Env :=
  { sample_env with realpath := fun p => if p = "/gone".toList then none else some p }

/-- A sample environment in which `/mnt/../b` is not canonical: its canonical form is
`/b`. -/
def linking_env : Env :=
  { sample_env with
    realpath := fun p => if p = "/mnt/../b".toList then some "/b".toList else some p }

/-- An fstab entry at which neither the canonicalisation nor the mount call fails: its
mount point has a canonical form, and the entry is skipped or its mount call returns
0. -/
def entry_passes (env : Env) (fs : fstab) : Bool :=
  match env.realpath fs.fs_file with
  | none => false
  | some mountpoint =>
    skipped env fs ||
      decide (env.mount (batch_device fs) mountpoint (batch_flags env fs)
        (some fs.fs_vfstype) (some fs.fs_mntops) = 0)

/-- Whether `k` recordings in a row, from the world `w` on, go without a fatal error of
the mount-table store: recording is off, or there is nothing to record, or the table
loads and has room (for `k` more rows when the commits go through, for one more row
when they do not). -/
def store_fits (w : World) (k : Nat) : Bool :=
  decide (w.write_mtab = 0 ∨ k = 0 ∨
    (w.readable = true ∧
      w.mtab.length + (if w.writable = true then k else 1) ≤ w.capacity))

/-! ## The option filter -/

theorem strtok_comma_cons (cs : CStr) : strtok (',' :: cs) [','] = strtok cs [','] := by
  simp [strtok, List.dropWhile]

theorem tokens_comma_cons (cs : CStr) : tokens (',' :: cs) = tokens cs := by
  simp [tokens, comma_split]

theorem tokens_nil : tokens [] = [] := by
  simp [tokens, comma_split]

theorem comma_split_head (s : CStr) :
    ∃ ts, comma_split s = s.takeWhile (fun x => !decide (x ∈ [','])) :: ts ∧
      ts.filter (fun t => decide (t ≠ [])) =
        tokens ((s.dropWhile (fun x => !decide (x ∈ [',']))).drop 1) := by
  induction s with
  | nil => exact ⟨[], by simp [comma_split], by simp [tokens, comma_split]⟩
  | cons c cs ih =>
    obtain ⟨ts, h1, h2⟩ := ih
    by_cases hc : c = ','
    · subst hc
      refine ⟨comma_split cs, by simp [comma_split, List.takeWhile], ?_⟩
      simp [List.dropWhile, tokens]
    · refine ⟨ts, ?_, ?_⟩
      · simp [comma_split, hc, h1, List.takeWhile]
      · rw [h2]
        simp [List.dropWhile, hc]

theorem strtok_spec (s : CStr) :
    match strtok s [','] with
    | none => tokens s = []
    | some (t, r) => t ≠ [] ∧ tokens s = t :: tokens r ∧ r.length < s.length := by
  induction s with
  | nil => simp [strtok, tokens_nil]
  | cons c cs ih =>
    by_cases hc : c = ','
    · subst hc
      rw [strtok_comma_cons, tokens_comma_cons]
      split
      · next h => rw [h] at ih; exact ih
      · next t r h =>
        rw [h] at ih
        simp only at ih
        exact ⟨ih.1, ih.2.1, Nat.lt_succ_of_lt ih.2.2⟩
    · obtain ⟨ts, h1, h2⟩ := comma_split_head cs
      have hs : strtok (c :: cs) [','] =
          some (c :: cs.takeWhile (fun x => !decide (x ∈ [','])),
                (cs.dropWhile (fun x => !decide (x ∈ [',']))).drop 1) := by
        simp [strtok, List.dropWhile, List.takeWhile, hc]
      rw [hs]
      refine ⟨by simp, ?_, ?_⟩
      · rw [← h2]
        simp [tokens, comma_split, hc, h1]
      · simp only [List.length_drop, List.length_cons]
        have := (List.dropWhile_sublist (l := cs) (fun x => !decide (x ∈ [',']))).length_le
        omega

theorem has_opt_loop_spec (option : CStr) :
    ∀ (fuel : Nat) (rest : CStr) (found : Int), rest.length < fuel →
      has_opt_loop option fuel rest found =
        some (if option ∈ tokens rest then 1 else found) := by
  intro fuel
  induction fuel with
  | zero => intro rest found h; omega
  | succ n ih =>
    intro rest found h
    have hs := strtok_spec rest
    unfold has_opt_loop
    split
    · next heq =>
      rw [heq] at hs
      simp only at hs
      simp [hs]
    · next opt rest1 heq =>
      rw [heq] at hs
      simp only at hs
      obtain ⟨_, h2, h3⟩ := hs
      rw [ih rest1 _ (by omega), h2]
      by_cases h4 : opt = option
      · simp [h4]
      · have h5 : ¬ option = opt := fun h => h4 h.symm
        simp [h4, h5]

theorem has_opt_eq (mntopts option : CStr) :
    has_opt mntopts option = some (if option ∈ tokens mntopts then 1 else 0) :=
  has_opt_loop_spec option _ mntopts 0 (Nat.lt_succ_self _)

theorem mem_tokens (s k : CStr) : k ∈ tokens s ↔ k ≠ [] ∧ k ∈ comma_split s := by
  simp [tokens, and_comm]

/-! ## The copying loop and `update_mtab` in closed form -/

theorem update_mtab_loop_eq :
    ∀ (es : List MtabEntry) (fuel : Nat) (w : World), w.inbuf = es → es.length < fuel →
      update_mtab_loop fuel w =
        if es.length ≤ w.capacity - w.outbuf.length then
          (Res.ret (),
            { w with inbuf := [], outbuf := w.outbuf ++ es,
                     trace := w.trace ++ es.map Event.put_mtab_entry })
        else
          (Res.exit 1,
            { w with inbuf := es.drop (w.capacity - w.outbuf.length + 1),
                     outbuf := w.outbuf ++ es.take (w.capacity - w.outbuf.length),
                     trace := w.trace ++
                       (es.take (w.capacity - w.outbuf.length + 1)).map Event.put_mtab_entry,
                     stderr := w.stderr ++ [too_large] }) := by
  intro es
  induction es with
  | nil =>
    intro fuel w hw hf
    obtain ⟨n, rfl⟩ : ∃ n, fuel = n + 1 := ⟨fuel - 1, by simp at hf; omega⟩
    obtain ⟨wm, mt, rd, wr, cap, ib, ob, tr, so, se⟩ := w
    simp only at hw
    subst hw
    simp [update_mtab_loop, get_mtab_entry]
  | cons e es ih =>
    intro fuel w hw hf
    obtain ⟨n, rfl⟩ : ∃ n, fuel = n + 1 := ⟨fuel - 1, by simp at hf; omega⟩
    obtain ⟨wm, mt, rd, wr, cap, ib, ob, tr, so, se⟩ := w
    simp only at hw
    subst hw
    simp only [List.length_cons] at hf
    by_cases hroom : ob.length + 1 > cap
    · have h0 : cap - ob.length = 0 := by omega
      simp [update_mtab_loop, get_mtab_entry, put_mtab_entry, hroom, h0, std_err, too_large]
    · have h1 : ob.length + 1 ≤ cap := by omega
      simp only [update_mtab_loop, get_mtab_entry, put_mtab_entry, hroom, if_false]
      rw [if_neg (by decide)]
      rw [ih n _ rfl (by omega)]
      simp only [List.length_append, List.length_cons, List.length_nil]
      have h2 : cap - (ob.length + (0 + 1)) + 1 = cap - ob.length := by omega
      have h3 : cap - ob.length = (cap - (ob.length + (0 + 1))) + 1 := by omega
      by_cases hfit : es.length ≤ cap - (ob.length + (0 + 1))
      · have hfit2 : es.length + 1 ≤ cap - ob.length := by omega
        simp [hfit, hfit2]
      · have hfit2 : ¬ es.length + 1 ≤ cap - ob.length := by omega
        simp only [hfit, hfit2, if_false, h2]
        rw [h3]
        simp [List.take, List.drop]

theorem update_mtab_off (env : Env) (dev mountpoint : CStr) (fstype : Option CStr)
    (mountflags : Nat) (w : World) (hw : w.write_mtab = 0) :
    update_mtab env dev mountpoint fstype mountflags w = (Res.ret (), w) := by
  simp [update_mtab, hw]

theorem update_mtab_unreadable (env : Env) (dev mountpoint : CStr) (fstype : Option CStr)
    (mountflags : Nat) (w : World) (hw : w.write_mtab ≠ 0) (hr : w.readable = false) :
    update_mtab env dev mountpoint fstype mountflags w =
      (Res.exit 1, { w with trace := w.trace ++ [Event.load_mtab] }) := by
  simp [update_mtab, hw, load_mtab, hr]

theorem update_mtab_eq (env : Env) (dev mountpoint t : CStr) (mountflags : Nat) (w : World)
    (hw : w.write_mtab ≠ 0) (hr : w.readable = true) :
    update_mtab env dev mountpoint (some t) mountflags w =
      if w.mtab.length + 1 ≤ w.capacity then
        (Res.ret (),
          { w with inbuf := [],
                   outbuf := w.mtab ++ [new_row env dev mountpoint t mountflags],
                   trace := w.trace ++ Event.load_mtab ::
                     (w.mtab ++ [new_row env dev mountpoint t mountflags]).map
                       Event.put_mtab_entry ++ [Event.rewrite_mtab],
                   mtab := if w.writable then
                       w.mtab ++ [new_row env dev mountpoint t mountflags]
                     else w.mtab })
      else
        (Res.exit 1,
          { w with inbuf := w.mtab.drop (w.capacity + 1),
                   outbuf := w.mtab.take w.capacity,
                   trace := w.trace ++ Event.load_mtab ::
                     ((w.mtab ++ [new_row env dev mountpoint t mountflags]).take
                       (w.capacity + 1)).map Event.put_mtab_entry,
                   stderr := w.stderr ++ [too_large] }) := by
  obtain ⟨wm, mt, rd, wr, cap, ib, ob, tr, so, se⟩ := w
  simp only at hw hr
  subst hr
  simp only [update_mtab, hw, if_false, load_mtab, if_true]
  rw [if_neg (by decide)]
  rw [update_mtab_loop_eq mt _ _ rfl (Nat.lt_succ_self _)]
  simp only [List.length_nil, Nat.sub_zero, List.nil_append]
  by_cases h1 : mt.length ≤ cap
  · simp only [h1, if_true]
    by_cases h2 : mt.length + 1 ≤ cap
    · have h3 : ¬ mt.length + 1 > cap := by omega
      simp only [put_mtab_entry, h3, h2, if_true, if_false, rewrite_mtab, new_row]
      rw [if_neg (by decide)]
      cases wr <;> simp
    · have h3 : mt.length + 1 > cap := by omega
      have h4 : cap = mt.length := by omega
      simp only [put_mtab_entry, h3, h2, if_true, if_false, new_row]
      rw [if_pos (by decide)]
      subst h4
      simp [std_err, too_large, List.take_append_eq_append_take]
  · have h2 : ¬ mt.length + 1 ≤ cap := by omega
    simp only [h1, h2, if_false]
    have h5 : cap + 1 ≤ mt.length := by omega
    simp [List.take_append_eq_append_take, List.take_of_length_le, h5, Nat.sub_eq_zero_of_le h5]

/-! ## The batch, one entry at a time -/

theorem has_opt_val (s k : CStr) (hk : k ≠ []) :
    has_opt s k = some (if k ∈ comma_split s then 1 else 0) := by
  rw [has_opt_eq]
  simp [mem_tokens, hk]

theorem mount_all_cons (env : Env) (fs : fstab) (rest : List fstab) (w : World) :
    mount_all env (fs :: rest) w =
      match env.realpath fs.fs_file with
      | none =>
        (Res.ret EXIT_FAILURE,
          std_err ("Can't mount on ".toList ++ fs.fs_file ++ "\n".toList) w)
      | some mountpoint =>
        if skipped env fs then mount_all env rest w
        else if env.mount (batch_device fs) mountpoint (batch_flags env fs)
            (some fs.fs_vfstype) (some fs.fs_mntops) = 0 then
          match update_mtab env fs.fs_spec fs.fs_file (some fs.fs_vfstype)
              (batch_flags env fs) { w with trace := w.trace ++ [batch_call env fs] } with
          | (Res.ret _, w3) => mount_all env rest w3
          | (Res.exit s, w3) => (Res.exit s, w3)
          | (Res.undef, w3) => (Res.undef, w3)
          | (Res.nofuel, w3) => (Res.nofuel, w3)
        else
          (Res.ret EXIT_FAILURE,
            std_err
              (cant_mount fs.fs_spec fs.fs_file
                (env.mount_error (batch_device fs) mountpoint (batch_flags env fs)
                  (some fs.fs_vfstype) (some fs.fs_mntops)))
              { w with trace := w.trace ++ [batch_call env fs] }) := by
  have hn : "noauto".toList ≠ [] := by decide
  have hro : "ro".toList ≠ [] := by decide
  rw [mount_all]
  cases hrp : env.realpath fs.fs_file with
  | none => rfl
  | some mp =>
    simp only [has_opt_val _ _ hn, has_opt_val _ _ hro, skipped, hrp]
    by_cases h1 : ['n', 'o', 'a', 'u', 't', 'o'] ∈ comma_split fs.fs_mntops
    · simp [h1]
    · by_cases h2 : mp = ['/']
      · simp [h1, h2]
      · by_cases h3 : ['r', 'o'] ∈ comma_split fs.fs_mntops
        · simp [h1, h2, h3, mount, batch_call, batch_flags, batch_device, hrp]
        · simp [h1, h2, h3, mount, batch_call, batch_flags, batch_device, hrp]

theorem mount_calls_append (a b : List Event) :
    mount_calls (a ++ b) = mount_calls a ++ mount_calls b := by
  simp [mount_calls]

theorem mount_calls_puts (es : List MtabEntry) :
    mount_calls (es.map Event.put_mtab_entry) = [] := by
  induction es with
  | nil => rfl
  | cons e es ih =>
    simp only [mount_calls, List.map_cons] at ih ⊢
    rw [List.filter_cons_of_neg (by simp [Event.isMount])]
    exact ih

theorem probe_calls_append (a b : List Event) :
    probe_calls (a ++ b) = probe_calls a ++ probe_calls b := by
  simp [probe_calls]

theorem probe_calls_puts (es : List MtabEntry) :
    probe_calls (es.map Event.put_mtab_entry) = [] := by
  induction es with
  | nil => rfl
  | cons e es ih =>
    simp only [probe_calls, List.map_cons] at ih ⊢
    rw [List.filter_cons_of_neg (by simp [Event.isProbe])]
    exact ih

theorem mount_calls_cons (e : Event) (l : List Event) :
    mount_calls (e :: l) = if e.isMount = true then e :: mount_calls l else mount_calls l := by
  simp only [mount_calls, List.filter_cons]

theorem probe_calls_cons (e : Event) (l : List Event) :
    probe_calls (e :: l) = if e.isProbe = true then e :: probe_calls l else probe_calls l := by
  simp only [probe_calls, List.filter_cons]

theorem mount_calls_nil : mount_calls [] = [] := rfl

theorem probe_calls_nil : probe_calls [] = [] := rfl

/-- What `update_mtab` leaves alone, and what it does to the persisted table. -/
theorem update_mtab_cases (env : Env) (dev mountpoint t : CStr) (mountflags : Nat)
    (w : World) :
    ((update_mtab env dev mountpoint (some t) mountflags w).1 = Res.ret () ∨
      (update_mtab env dev mountpoint (some t) mountflags w).1 = Res.exit 1) ∧
    mount_calls (update_mtab env dev mountpoint (some t) mountflags w).2.trace =
      mount_calls w.trace ∧
    probe_calls (update_mtab env dev mountpoint (some t) mountflags w).2.trace =
      probe_calls w.trace ∧
    (update_mtab env dev mountpoint (some t) mountflags w).2.write_mtab = w.write_mtab ∧
    (update_mtab env dev mountpoint (some t) mountflags w).2.writable = w.writable ∧
    (update_mtab env dev mountpoint (some t) mountflags w).2.readable = w.readable ∧
    (update_mtab env dev mountpoint (some t) mountflags w).2.capacity = w.capacity ∧
    (update_mtab env dev mountpoint (some t) mountflags w).2.mtab =
      if (update_mtab env dev mountpoint (some t) mountflags w).1 = Res.ret () ∧
          w.write_mtab ≠ 0 ∧ w.writable = true then
        w.mtab ++ [new_row env dev mountpoint t mountflags]
      else w.mtab := by
  by_cases hw : w.write_mtab = 0
  · rw [update_mtab_off _ _ _ _ _ _ hw]
    simp [hw]
  · cases hr : w.readable with
    | false =>
      rw [update_mtab_unreadable _ _ _ _ _ _ hw hr]
      simp [mount_calls_append, probe_calls_append, mount_calls_cons, probe_calls_cons,
        mount_calls_nil, probe_calls_nil, Event.isMount, Event.isProbe, hr]
    | true =>
      rw [update_mtab_eq _ _ _ _ _ _ hw hr]
      by_cases hroom : w.mtab.length + 1 ≤ w.capacity
      · rw [if_pos hroom]
        refine ⟨Or.inl rfl, ?_, ?_, rfl, rfl, hr, rfl, ?_⟩
        · simp [mount_calls_append, mount_calls_cons, mount_calls_puts, mount_calls_nil,
            Event.isMount]
        · simp [probe_calls_append, probe_calls_cons, probe_calls_puts, probe_calls_nil,
            Event.isProbe]
        · cases w.writable <;> simp [hw]
      · rw [if_neg hroom]
        refine ⟨Or.inr rfl, ?_, ?_, rfl, rfl, hr, rfl, ?_⟩
        · simp only [mount_calls_append, mount_calls_cons, mount_calls_puts, Event.isMount]
          simp
        · simp only [probe_calls_append, probe_calls_cons, probe_calls_puts, Event.isProbe]
          simp
        · simp

theorem attempted_skip (env : Env) (fs : fstab) (rest : List fstab)
    (h : skipped env fs = true) : attempted env (fs :: rest) = attempted env rest := by
  simp [attempted, List.filter_cons, h]

theorem attempted_keep (env : Env) (fs : fstab) (rest : List fstab)
    (h : skipped env fs = false) : attempted env (fs :: rest) = fs :: attempted env rest := by
  simp [attempted, List.filter_cons, h]

/-- A batch entry that is not skipped and whose mount call succeeds: either the row is
recorded and the batch goes on, or `update_mtab` ends the process. -/
theorem mount_all_mounted (env : Env) (fs : fstab) (rest : List fstab) (w : World)
    (mp : CStr) (hrp : env.realpath fs.fs_file = some mp) (hs : skipped env fs = false)
    (hm : env.mount (batch_device fs) mp (batch_flags env fs) (some fs.fs_vfstype)
      (some fs.fs_mntops) = 0) :
    ((update_mtab env fs.fs_spec fs.fs_file (some fs.fs_vfstype) (batch_flags env fs)
        { w with trace := w.trace ++ [batch_call env fs] }).1 = Res.ret () ∧
      mount_all env (fs :: rest) w =
        mount_all env rest
          (update_mtab env fs.fs_spec fs.fs_file (some fs.fs_vfstype) (batch_flags env fs)
            { w with trace := w.trace ++ [batch_call env fs] }).2) ∨
    ((update_mtab env fs.fs_spec fs.fs_file (some fs.fs_vfstype) (batch_flags env fs)
        { w with trace := w.trace ++ [batch_call env fs] }).1 = Res.exit 1 ∧
      mount_all env (fs :: rest) w =
        (Res.exit 1,
          (update_mtab env fs.fs_spec fs.fs_file (some fs.fs_vfstype) (batch_flags env fs)
            { w with trace := w.trace ++ [batch_call env fs] }).2)) := by
  rw [mount_all_cons]
  simp only [hrp, hs, hm, if_true]
  rcases (update_mtab_cases env fs.fs_spec fs.fs_file fs.fs_vfstype (batch_flags env fs)
    { w with trace := w.trace ++ [batch_call env fs] }).1 with h | h
  · left
    refine ⟨h, ?_⟩
    revert h
    generalize update_mtab env fs.fs_spec fs.fs_file (some fs.fs_vfstype) (batch_flags env fs)
      { w with trace := w.trace ++ [batch_call env fs] } = u
    obtain ⟨r, w3⟩ := u
    intro h
    simp only at h
    subst h
    simp
  · right
    refine ⟨h, ?_⟩
    revert h
    generalize update_mtab env fs.fs_spec fs.fs_file (some fs.fs_vfstype) (batch_flags env fs)
      { w with trace := w.trace ++ [batch_call env fs] } = u
    obtain ⟨r, w3⟩ := u
    intro h
    simp only at h
    subst h
    simp

theorem mount_all_failed (env : Env) (fs : fstab) (rest : List fstab) (w : World)
    (mp : CStr) (hrp : env.realpath fs.fs_file = some mp) (hs : skipped env fs = false)
    (hm : env.mount (batch_device fs) mp (batch_flags env fs) (some fs.fs_vfstype)
      (some fs.fs_mntops) ≠ 0) :
    mount_all env (fs :: rest) w =
      (Res.ret EXIT_FAILURE,
        std_err
          (cant_mount fs.fs_spec fs.fs_file
            (env.mount_error (batch_device fs) mp (batch_flags env fs)
              (some fs.fs_vfstype) (some fs.fs_mntops)))
          { w with trace := w.trace ++ [batch_call env fs] }) := by
  rw [mount_all_cons]
  simp only [hrp, hs, hm, if_false]
  simp

theorem mount_all_skip (env : Env) (fs : fstab) (rest : List fstab) (w : World)
    (mp : CStr) (hrp : env.realpath fs.fs_file = some mp) (hs : skipped env fs = true) :
    mount_all env (fs :: rest) w = mount_all env rest w := by
  rw [mount_all_cons]
  simp only [hrp, hs, if_true]

theorem mount_all_unresolved (env : Env) (fs : fstab) (rest : List fstab) (w : World)
    (hrp : env.realpath fs.fs_file = none) :
    mount_all env (fs :: rest) w =
      (Res.ret EXIT_FAILURE,
        std_err ("Can't mount on ".toList ++ fs.fs_file ++ "\n".toList) w) := by
  rw [mount_all_cons]
  simp only [hrp]

/-- The mount calls of the batch are those of the entries that are not skipped, in fstab
order, up to the entry where the batch stops; all of them when it returns success. -/
theorem mount_all_calls (env : Env) :
    ∀ (table : List fstab) (w : World),
      ∃ n, mount_calls (mount_all env table w).2.trace =
          mount_calls w.trace ++ ((attempted env table).take n).map (batch_call env) ∧
        ((mount_all env table w).1 = Res.ret EXIT_SUCCESS →
          (attempted env table).length ≤ n) := by
  intro table
  induction table with
  | nil => intro w; exact ⟨0, by simp [mount_all, attempted], by simp [attempted]⟩
  | cons fs rest ih =>
    intro w
    cases hrp : env.realpath fs.fs_file with
    | none =>
      rw [mount_all_unresolved env fs rest w hrp]
      exact ⟨0, by simp [std_err], by simp [EXIT_FAILURE, EXIT_SUCCESS]⟩
    | some mp =>
      cases hs : skipped env fs with
      | true =>
        rw [mount_all_skip env fs rest w mp hrp hs, attempted_skip env fs rest hs]
        exact ih w
      | false =>
        rw [attempted_keep env fs rest hs]
        by_cases hm : env.mount (batch_device fs) mp (batch_flags env fs)
            (some fs.fs_vfstype) (some fs.fs_mntops) = 0
        · have hc := update_mtab_cases env fs.fs_spec fs.fs_file fs.fs_vfstype
            (batch_flags env fs) { w with trace := w.trace ++ [batch_call env fs] }
          rcases mount_all_mounted env fs rest w mp hrp hs hm with ⟨_, h2⟩ | ⟨_, h2⟩
          · rw [h2]
            obtain ⟨n, h3, h4⟩ := ih (update_mtab env fs.fs_spec fs.fs_file
              (some fs.fs_vfstype) (batch_flags env fs)
              { w with trace := w.trace ++ [batch_call env fs] }).2
            refine ⟨n + 1, ?_, fun h => ?_⟩
            · rw [h3, hc.2.1]
              simp [mount_calls_append, mount_calls_cons, mount_calls_nil, batch_call,
                Event.isMount]
            · have := h4 h
              simp only [List.length_cons]
              omega
          · rw [h2]
            refine ⟨1, ?_, fun h => ?_⟩
            · rw [hc.2.1]
              simp [mount_calls_append, mount_calls_cons, mount_calls_nil, batch_call,
                Event.isMount]
            · simp at h
        · rw [mount_all_failed env fs rest w mp hrp hs hm]
          refine ⟨1, ?_, fun h => ?_⟩
          · simp [std_err, mount_calls_append, mount_calls_cons, mount_calls_nil, batch_call,
              Event.isMount]
          · simp [EXIT_FAILURE, EXIT_SUCCESS] at h

/-- With recording off, or a table that cannot be replaced, the batch leaves the
persisted table as it was. -/
theorem mount_all_mtab_off (env : Env) :
    ∀ (table : List fstab) (w : World), (w.write_mtab = 0 ∨ w.writable = false) →
      (mount_all env table w).2.mtab = w.mtab := by
  intro table
  induction table with
  | nil => intro w _; rfl
  | cons fs rest ih =>
    intro w hoff
    cases hrp : env.realpath fs.fs_file with
    | none => rw [mount_all_unresolved env fs rest w hrp]; rfl
    | some mp =>
      cases hs : skipped env fs with
      | true => rw [mount_all_skip env fs rest w mp hrp hs]; exact ih w hoff
      | false =>
        by_cases hm : env.mount (batch_device fs) mp (batch_flags env fs)
            (some fs.fs_vfstype) (some fs.fs_mntops) = 0
        · have hc := update_mtab_cases env fs.fs_spec fs.fs_file fs.fs_vfstype
            (batch_flags env fs) { w with trace := w.trace ++ [batch_call env fs] }
          obtain ⟨_, _, _, hwm, hwr, _, _, hmt⟩ := hc
          have hkeep : (update_mtab env fs.fs_spec fs.fs_file (some fs.fs_vfstype)
              (batch_flags env fs) { w with trace := w.trace ++ [batch_call env fs] }).2.mtab
              = w.mtab := by
            rw [hmt]
            rcases hoff with h | h
            · simp [h]
            · simp [h]
          rcases mount_all_mounted env fs rest w mp hrp hs hm with ⟨_, h2⟩ | ⟨_, h2⟩
          · rw [h2, ih _ (by rw [hwm, hwr]; exact hoff), hkeep]
          · rw [h2]; exact hkeep
        · rw [mount_all_failed env fs rest w mp hrp hs hm]; rfl

/-- The rows the batch adds to the persisted table are those of the entries that are
not skipped, in fstab order, up to some entry; all of them when the batch returns
success with recording on and a table that can be replaced. -/
theorem mount_all_mtab (env : Env) :
    ∀ (table : List fstab) (w : World),
      ∃ m, (mount_all env table w).2.mtab =
          w.mtab ++ ((attempted env table).take m).map (batch_row env) ∧
        ((mount_all env table w).1 = Res.ret EXIT_SUCCESS → w.write_mtab ≠ 0 →
          w.writable = true → (attempted env table).length ≤ m) := by
  intro table
  induction table with
  | nil => intro w; exact ⟨0, by simp [mount_all, attempted], by simp [attempted]⟩
  | cons fs rest ih =>
    intro w
    cases hrp : env.realpath fs.fs_file with
    | none =>
      rw [mount_all_unresolved env fs rest w hrp]
      exact ⟨0, by simp [std_err], by simp [EXIT_FAILURE, EXIT_SUCCESS]⟩
    | some mp =>
      cases hs : skipped env fs with
      | true =>
        rw [mount_all_skip env fs rest w mp hrp hs, attempted_skip env fs rest hs]
        exact ih w
      | false =>
        rw [attempted_keep env fs rest hs]
        by_cases hm : env.mount (batch_device fs) mp (batch_flags env fs)
            (some fs.fs_vfstype) (some fs.fs_mntops) = 0
        · have hc := update_mtab_cases env fs.fs_spec fs.fs_file fs.fs_vfstype
            (batch_flags env fs) { w with trace := w.trace ++ [batch_call env fs] }
          obtain ⟨_, _, _, hwm, hwr, _, _, hmt⟩ := hc
          rcases mount_all_mounted env fs rest w mp hrp hs hm with ⟨h1, h2⟩ | ⟨h1, h2⟩
          · rw [h2]
            by_cases hon : w.write_mtab ≠ 0 ∧ w.writable = true
            · obtain ⟨m, h3, h4⟩ := ih (update_mtab env fs.fs_spec fs.fs_file
                (some fs.fs_vfstype) (batch_flags env fs)
                { w with trace := w.trace ++ [batch_call env fs] }).2
              refine ⟨m + 1, ?_, fun h _ _ => ?_⟩
              · rw [h3, hmt, if_pos ⟨h1, hon⟩]
                simp [batch_row]
              · have := h4 h (by rw [hwm]; exact hon.1) (by rw [hwr]; exact hon.2)
                simp only [List.length_cons]
                omega
            · have hoff : w.write_mtab = 0 ∨ w.writable = false := by
                by_cases h0 : w.write_mtab = 0
                · exact Or.inl h0
                · right
                  cases hb : w.writable with
                  | false => rfl
                  | true => exact absurd ⟨h0, hb⟩ hon
              refine ⟨0, ?_, fun _ h5 h6 => absurd ⟨h5, h6⟩ hon⟩
              rw [mount_all_mtab_off env rest _ (by rw [hwm, hwr]; exact hoff), hmt,
                if_neg (fun h => hon h.2)]
              simp
          · rw [h2]
            refine ⟨0, ?_, fun h => ?_⟩
            · simp only
              rw [hmt, if_neg (by rw [h1]; simp)]
              simp
            · simp at h
        · rw [mount_all_failed env fs rest w mp hrp hs hm]
          refine ⟨0, ?_, fun h => ?_⟩
          · simp [std_err]
          · simp [EXIT_FAILURE, EXIT_SUCCESS] at h

/-- The batch over a table in two parts: when the first part is done with success, the
batch goes on with the second part from the world the first part left. -/
theorem mount_all_append (env : Env) (post : List fstab) :
    ∀ (pre : List fstab) (w w1 : World),
      mount_all env pre w = (Res.ret EXIT_SUCCESS, w1) →
      mount_all env (pre ++ post) w = mount_all env post w1 := by
  intro pre
  induction pre with
  | nil =>
    intro w w1 h
    simp only [mount_all, Prod.mk.injEq] at h
    rw [List.nil_append, h.2]
  | cons fs rest ih =>
    intro w w1 h
    rw [List.cons_append]
    cases hrp : env.realpath fs.fs_file with
    | none =>
      rw [mount_all_unresolved env fs rest w hrp] at h
      simp [EXIT_FAILURE, EXIT_SUCCESS] at h
    | some mp =>
      cases hs : skipped env fs with
      | true =>
        rw [mount_all_skip env fs rest w mp hrp hs] at h
        rw [mount_all_skip env fs (rest ++ post) w mp hrp hs]
        exact ih w w1 h
      | false =>
        by_cases hm : env.mount (batch_device fs) mp (batch_flags env fs)
            (some fs.fs_vfstype) (some fs.fs_mntops) = 0
        · rcases mount_all_mounted env fs rest w mp hrp hs hm with ⟨h1, h2⟩ | ⟨h1, h2⟩
          · rcases mount_all_mounted env fs (rest ++ post) w mp hrp hs hm with
              ⟨_, h4⟩ | ⟨h3, _⟩
            · rw [h4]
              rw [h2] at h
              exact ih _ w1 h
            · rw [h1] at h3
              simp at h3
          · rw [h2] at h
            simp at h
        · rw [mount_all_failed env fs rest w mp hrp hs hm] at h
          simp [EXIT_FAILURE, EXIT_SUCCESS] at h

/-! ## The single mount -/

theorem update_mtab_null (env : Env) (dev mountpoint : CStr) (mountflags : Nat) (w : World)
    (hw : w.write_mtab ≠ 0) (hr : w.readable = true) :
    update_mtab env dev mountpoint none mountflags w =
      if w.mtab.length ≤ w.capacity then
        (Res.undef,
          { w with inbuf := [], outbuf := w.mtab,
                   trace := w.trace ++ Event.load_mtab :: w.mtab.map Event.put_mtab_entry })
      else
        (Res.exit 1,
          { w with inbuf := w.mtab.drop (w.capacity + 1),
                   outbuf := w.mtab.take w.capacity,
                   trace := w.trace ++ Event.load_mtab ::
                     (w.mtab.take (w.capacity + 1)).map Event.put_mtab_entry,
                   stderr := w.stderr ++ [too_large] }) := by
  obtain ⟨wm, mt, rd, wr, cap, ib, ob, tr, so, se⟩ := w
  simp only at hw hr
  subst hr
  simp only [update_mtab, hw, if_false, load_mtab, if_true]
  rw [if_neg (by decide)]
  rw [update_mtab_loop_eq mt _ _ rfl (Nat.lt_succ_self _)]
  simp only [List.length_nil, Nat.sub_zero, List.nil_append]
  by_cases h1 : mt.length ≤ cap
  · simp [h1]
  · simp [h1]

/-- Whatever the type, `update_mtab` calls neither `mount` nor `fsversion`. -/
theorem update_mtab_calls (env : Env) (dev mountpoint : CStr) (fstype : Option CStr)
    (mountflags : Nat) (w : World) :
    mount_calls (update_mtab env dev mountpoint fstype mountflags w).2.trace =
      mount_calls w.trace ∧
    probe_calls (update_mtab env dev mountpoint fstype mountflags w).2.trace =
      probe_calls w.trace := by
  cases fstype with
  | some t =>
    have h := update_mtab_cases env dev mountpoint t mountflags w
    exact ⟨h.2.1, h.2.2.1⟩
  | none =>
    by_cases hw : w.write_mtab = 0
    · rw [update_mtab_off _ _ _ _ _ _ hw]
      exact ⟨rfl, rfl⟩
    · cases hr : w.readable with
      | false =>
        rw [update_mtab_unreadable _ _ _ _ _ _ hw hr]
        simp [mount_calls_append, probe_calls_append, mount_calls_cons, probe_calls_cons,
          mount_calls_nil, probe_calls_nil, Event.isMount, Event.isProbe]
      | true =>
        rw [update_mtab_null _ _ _ _ _ hw hr]
        by_cases h1 : w.mtab.length ≤ w.capacity
        · rw [if_pos h1]
          constructor
          · simp only [mount_calls_append, mount_calls_cons, mount_calls_puts, Event.isMount]
            simp
          · simp only [probe_calls_append, probe_calls_cons, probe_calls_puts, Event.isProbe]
            simp
        · rw [if_neg h1]
          constructor
          · simp only [mount_calls_append, mount_calls_cons, mount_calls_puts, Event.isMount]
            simp
          · simp only [probe_calls_append, probe_calls_cons, probe_calls_puts, Event.isProbe]
            simp

/-- The single mount, with the type resolution and the two calls spelled out. -/
theorem main_single (env : Env) (etc_fstab : List fstab) (mountflags : Nat)
    (type args : Option CStr) (argv1 argv2 : CStr) (w : World) (hdev : argv1 ≠ []) :
    main env etc_fstab false mountflags type args [argv1, argv2] w =
      if env.mount (single_device argv1) argv2 mountflags (resolved_type env type argv1) args
          < 0 then
        (Res.ret EXIT_FAILURE,
          std_err
            (cant_mount argv1 argv2
              (env.mount_error (single_device argv1) argv2 mountflags
                (resolved_type env type argv1) args))
            { w with trace := w.trace ++ single_calls env mountflags type args argv1 argv2 })
      else
        match update_mtab env argv1 argv2 (resolved_type env type argv1) mountflags
            (printf (mounted_line env mountflags argv1 argv2)
              { w with trace :=
                  w.trace ++ single_calls env mountflags type args argv1 argv2 }) with
        | (Res.ret _, w4) => (Res.ret EXIT_SUCCESS, w4)
        | (Res.exit s, w4) => (Res.exit s, w4)
        | (Res.undef, w4) => (Res.undef, w4)
        | (Res.nofuel, w4) => (Res.nofuel, w4) := by
  have h0 : ¬ (false = false ∧ (([argv1, argv2] : List CStr).length + 1 ≠ 3 ∨
      ([argv1, argv2] : List CStr).head? = some [])) := by
    simp [hdev]
  rw [main, if_neg h0, if_neg (by decide)]
  by_cases hp : (type = none ∨ type = some MINIX_FS_TYPE) ∧ argv1 ≠ "none".toList
  · have hp1 : probed type argv1 = true := decide_eq_true hp
    have hd : argv1 ≠ "none".toList := hp.2
    have hp2 : (type = none ∨ type = some MINIX_FS_TYPE) ∧
        (if argv1 = "none".toList then none else some argv1) ≠ none := by
      refine ⟨hp.1, ?_⟩
      rw [if_neg hd]
      simp
    simp only [if_pos hp2, fsversion, resolved_type, hp1, single_calls, single_device,
      if_true, mounted_line, mount]
    by_cases hv : env.fsversion argv1 = env.FSVERSION_MFS1 ∨
        env.fsversion argv1 = env.FSVERSION_MFS2 ∨ env.fsversion argv1 = env.FSVERSION_MFS3
    · simp only [if_pos hv, List.append_assoc]
    · simp only [if_neg hv]
      by_cases he : env.fsversion argv1 = env.FSVERSION_EXT2
      · simp only [if_pos he, List.append_assoc]
      · simp only [if_neg he, List.append_assoc]
  · have hp1 : probed type argv1 = false := decide_eq_false hp
    have hp2 : ¬ ((type = none ∨ type = some MINIX_FS_TYPE) ∧
        (if argv1 = "none".toList then none else some argv1) ≠ none) := by
      intro h
      apply hp
      refine ⟨h.1, ?_⟩
      intro hd
      apply h.2
      rw [if_pos hd]
    simp only [if_neg hp2, resolved_type, hp1, single_calls, single_device,
      mounted_line, mount]
    simp

theorem single_calls_mount (env : Env) (mountflags : Nat) (type args : Option CStr)
    (argv1 argv2 : CStr) :
    mount_calls (single_calls env mountflags type args argv1 argv2) =
      [Event.mount (single_device argv1) argv2 mountflags (resolved_type env type argv1)
        args] := by
  cases h : probed type argv1 <;>
    simp [single_calls, h, mount_calls_append, mount_calls_cons, mount_calls_nil,
      Event.isMount]

theorem single_calls_probe (env : Env) (mountflags : Nat) (type args : Option CStr)
    (argv1 argv2 : CStr) :
    probe_calls (single_calls env mountflags type args argv1 argv2) =
      if probed type argv1 = true then [Event.fsversion argv1] else [] := by
  cases h : probed type argv1 <;>
    simp [single_calls, h, probe_calls_append, probe_calls_cons, probe_calls_nil,
      Event.isProbe]

/-- The single mount makes one mount call, after at most one probe. -/
theorem main_calls (env : Env) (etc_fstab : List fstab) (mountflags : Nat)
    (type args : Option CStr) (argv1 argv2 : CStr) (w : World) (hdev : argv1 ≠ []) :
    mount_calls (main env etc_fstab false mountflags type args [argv1, argv2] w).2.trace =
      mount_calls w.trace ++
        [Event.mount (single_device argv1) argv2 mountflags (resolved_type env type argv1)
          args] ∧
    probe_calls (main env etc_fstab false mountflags type args [argv1, argv2] w).2.trace =
      probe_calls w.trace ++
        (if probed type argv1 = true then [Event.fsversion argv1] else []) := by
  rw [main_single env etc_fstab mountflags type args argv1 argv2 w hdev]
  by_cases hm : env.mount (single_device argv1) argv2 mountflags
      (resolved_type env type argv1) args < 0
  · rw [if_pos hm]
    simp [std_err, mount_calls_append, probe_calls_append, single_calls_mount,
      single_calls_probe]
  · rw [if_neg hm]
    have hc := update_mtab_calls env argv1 argv2 (resolved_type env type argv1) mountflags
      (printf (mounted_line env mountflags argv1 argv2)
        { w with trace := w.trace ++ single_calls env mountflags type args argv1 argv2 })
    revert hc
    generalize update_mtab env argv1 argv2 (resolved_type env type argv1) mountflags
      (printf (mounted_line env mountflags argv1 argv2)
        { w with trace := w.trace ++ single_calls env mountflags type args argv1 argv2 }) = u
    obtain ⟨r, w4⟩ := u
    intro hc
    simp only [printf, mount_calls_append, probe_calls_append, single_calls_mount,
      single_calls_probe] at hc
    cases r <;> exact hc

/-- A batch over a table in which the mount call fails on an entry that is not skipped:
it ends with the failure status, its mount calls are those of entries up to that one,
and the rows it adds are rows of entries before that one. -/
theorem mount_all_before_failure (env : Env) (fs : fstab) (post : List fstab)
    (mountpoint : CStr) (hpath : env.realpath fs.fs_file = some mountpoint)
    (helig : skipped env fs = false)
    (hfail : env.mount (batch_device fs) mountpoint (batch_flags env fs)
      (some fs.fs_vfstype) (some fs.fs_mntops) ≠ 0) :
    ∀ (pre : List fstab) (w : World),
      exit_status (mount_all env (pre ++ fs :: post) w).1 = some EXIT_FAILURE ∧
      (∃ n, mount_calls (mount_all env (pre ++ fs :: post) w).2.trace =
        mount_calls w.trace ++
          ((attempted env (pre ++ [fs])).take n).map (batch_call env)) ∧
      (∃ m, (mount_all env (pre ++ fs :: post) w).2.mtab =
        w.mtab ++ ((attempted env pre).take m).map (batch_row env)) := by
  intro pre
  induction pre with
  | nil =>
    intro w
    rw [List.nil_append, mount_all_failed env fs post w mountpoint hpath helig hfail]
    refine ⟨rfl, ⟨1, ?_⟩, ⟨0, ?_⟩⟩
    · rw [List.nil_append, attempted_keep env fs [] helig]
      simp [std_err, mount_calls_append, mount_calls_cons, mount_calls_nil, batch_call,
        Event.isMount]
    · simp [std_err]
  | cons p ps ih =>
    intro w
    rw [List.cons_append, List.cons_append]
    cases hrp : env.realpath p.fs_file with
    | none =>
      rw [mount_all_unresolved env p _ w hrp]
      exact ⟨rfl, ⟨0, by simp [std_err]⟩, ⟨0, by simp [std_err]⟩⟩
    | some mp =>
      cases hs : skipped env p with
      | true =>
        rw [mount_all_skip env p _ w mp hrp hs, attempted_skip env p _ hs,
          attempted_skip env p _ hs]
        exact ih w
      | false =>
        rw [attempted_keep env p _ hs, attempted_keep env p _ hs]
        by_cases hm : env.mount (batch_device p) mp (batch_flags env p)
            (some p.fs_vfstype) (some p.fs_mntops) = 0
        · have hc := update_mtab_cases env p.fs_spec p.fs_file p.fs_vfstype
            (batch_flags env p) { w with trace := w.trace ++ [batch_call env p] }
          obtain ⟨_, hcalls, _, hwm, hwr, _, _, hmt⟩ := hc
          rcases mount_all_mounted env p (ps ++ fs :: post) w mp hrp hs hm with
            ⟨h1, h2⟩ | ⟨h1, h2⟩
          · rw [h2]
            obtain ⟨hst, ⟨n, hn⟩, ⟨m, hmm⟩⟩ := ih (update_mtab env p.fs_spec p.fs_file
              (some p.fs_vfstype) (batch_flags env p)
              { w with trace := w.trace ++ [batch_call env p] }).2
            refine ⟨hst, ⟨n + 1, ?_⟩, ?_⟩
            · rw [hn, hcalls]
              simp [mount_calls_append, mount_calls_cons, mount_calls_nil, batch_call,
                Event.isMount]
            · by_cases hon : w.write_mtab ≠ 0 ∧ w.writable = true
              · refine ⟨m + 1, ?_⟩
                rw [hmm, hmt, if_pos ⟨h1, hon⟩]
                simp [batch_row]
              · have hoff : w.write_mtab = 0 ∨ w.writable = false := by
                  by_cases h0 : w.write_mtab = 0
                  · exact Or.inl h0
                  · right
                    cases hb : w.writable with
                    | false => rfl
                    | true => exact absurd ⟨h0, hb⟩ hon
                refine ⟨0, ?_⟩
                rw [mount_all_mtab_off env _ _ (by rw [hwm, hwr]; exact hoff), hmt,
                  if_neg (fun h => hon h.2)]
                simp
          · rw [h2]
            refine ⟨rfl, ⟨1, ?_⟩, ⟨0, ?_⟩⟩
            · rw [hcalls]
              simp [mount_calls_append, mount_calls_cons, mount_calls_nil, batch_call,
                Event.isMount]
            · rw [hmt, if_neg (by rw [h1]; simp)]
              simp
        · rw [mount_all_failed env p _ w mp hrp hs hm]
          refine ⟨rfl, ⟨1, ?_⟩, ⟨0, ?_⟩⟩
          · simp [std_err, mount_calls_append, mount_calls_cons, mount_calls_nil, batch_call,
              Event.isMount]
          · simp [std_err]

/-! ## The batch from the environment alone -/

theorem store_fits_iff (w : World) (k : Nat) :
    store_fits w k = true ↔
      (w.write_mtab = 0 ∨ k = 0 ∨
        (w.readable = true ∧
          w.mtab.length + (if w.writable = true then k else 1) ≤ w.capacity)) := by
  simp [store_fits]

theorem store_fits_mono (w : World) (a b : Nat) (h : store_fits w (a + b) = true) :
    store_fits w a = true := by
  rw [store_fits_iff] at h ⊢
  rcases h with h | h | ⟨h1, h2⟩
  · exact Or.inl h
  · exact Or.inr (Or.inl (by omega))
  · refine Or.inr (Or.inr ⟨h1, ?_⟩)
    split at h2 <;> rename_i hw
    · rw [if_pos hw]; omega
    · rw [if_neg hw]; exact h2

/-- A recording that the store has room for: `update_mtab` returns, and what fits after
it is what fitted before it, less one. -/
theorem update_mtab_fits (env : Env) (dev mountpoint t : CStr) (mountflags : Nat)
    (w : World) (h : store_fits w 1 = true) :
    (update_mtab env dev mountpoint (some t) mountflags w).1 = Res.ret () ∧
    (∀ j, store_fits (update_mtab env dev mountpoint (some t) mountflags w).2 j =
      store_fits w (1 + j)) := by
  by_cases hw : w.write_mtab = 0
  · rw [update_mtab_off _ _ _ _ _ _ hw]
    refine ⟨rfl, fun j => ?_⟩
    simp [store_fits, hw]
  · rw [store_fits_iff] at h
    rcases h with h | h | ⟨hr, hroom⟩
    · exact absurd h hw
    · exact absurd h (by decide)
    · have hroom1 : w.mtab.length + 1 ≤ w.capacity := by
        split at hroom <;> exact hroom
      rw [update_mtab_eq _ _ _ _ _ _ hw hr, if_pos hroom1]
      refine ⟨rfl, fun j => ?_⟩
      cases hwr : w.writable with
      | false =>
        cases j with
        | zero => simp [store_fits, hw, hr, hwr, hroom1]
        | succ j => simp [store_fits, hw, hr, hwr]
      | true =>
        simp only [store_fits, hw, hr, hwr, if_true, List.length_append, List.length_cons,
          List.length_nil, false_or, true_and]
        cases j with
        | zero => simp; omega
        | succ j =>
          have e1 : (j + 1 = 0) = False := by simp
          have e2 : (1 + (j + 1) = 0) = False := by simp
          simp only [e1, e2, false_or]
          congr 1
          apply propext
          constructor <;> intro h <;> omega

/-- A recording that the store has no room for: `update_mtab` ends the process. -/
theorem update_mtab_unfit (env : Env) (dev mountpoint t : CStr) (mountflags : Nat)
    (w : World) (h : store_fits w 1 = false) :
    (update_mtab env dev mountpoint (some t) mountflags w).1 = Res.exit 1 := by
  have h' : ¬ (w.write_mtab = 0 ∨ 1 = 0 ∨
      (w.readable = true ∧
        w.mtab.length + (if w.writable = true then 1 else 1) ≤ w.capacity)) := by
    intro hc
    rw [(store_fits_iff w 1).mpr hc] at h
    exact absurd h (by decide)
  have hw : w.write_mtab ≠ 0 := fun hc => h' (Or.inl hc)
  cases hr : w.readable with
  | false => rw [update_mtab_unreadable _ _ _ _ _ _ hw hr]
  | true =>
    have hroom : ¬ w.mtab.length + 1 ≤ w.capacity := by
      intro hc
      apply h'
      refine Or.inr (Or.inr ⟨hr, ?_⟩)
      split <;> exact hc
    rw [update_mtab_eq _ _ _ _ _ _ hw hr, if_neg hroom]

theorem entry_passes_iff (env : Env) (fs : fstab) :
    entry_passes env fs = true ↔
      ∃ mountpoint, env.realpath fs.fs_file = some mountpoint ∧
        (skipped env fs = true ∨
          env.mount (batch_device fs) mountpoint (batch_flags env fs)
            (some fs.fs_vfstype) (some fs.fs_mntops) = 0) := by
  unfold entry_passes
  cases h : env.realpath fs.fs_file with
  | none => simp
  | some mp => simp

/-- A batch over a table in which no entry fails, with a store that has room: it
returns success, every entry that is not skipped is attempted, in fstab order, and
with recording on and commits that go through their rows are added to the table. -/
theorem mount_all_all_pass (env : Env) :
    ∀ (table : List fstab) (w : World),
      (∀ fs ∈ table, entry_passes env fs = true) →
      store_fits w (attempted env table).length = true →
      (mount_all env table w).1 = Res.ret EXIT_SUCCESS ∧
      mount_calls (mount_all env table w).2.trace =
        mount_calls w.trace ++ (attempted env table).map (batch_call env) ∧
      (mount_all env table w).2.mtab =
        (if w.write_mtab ≠ 0 ∧ w.writable = true then
          w.mtab ++ (attempted env table).map (batch_row env)
         else w.mtab) ∧
      (∀ j, store_fits (mount_all env table w).2 j =
        store_fits w ((attempted env table).length + j)) := by
  intro table
  induction table with
  | nil =>
    intro w _ _
    refine ⟨rfl, by simp [mount_all, attempted], by simp [mount_all, attempted], fun j => ?_⟩
    simp [mount_all, attempted]
  | cons fs rest ih =>
    intro w hall hfit
    obtain ⟨mp, hrp, hsm⟩ := (entry_passes_iff env fs).mp (hall fs (List.mem_cons_self _ _))
    have hrest : ∀ g ∈ rest, entry_passes env g = true :=
      fun g hg => hall g (List.mem_cons_of_mem _ hg)
    cases hs : skipped env fs with
    | true =>
      rw [attempted_skip env fs rest hs] at hfit ⊢
      rw [mount_all_skip env fs rest w mp hrp hs]
      exact ih w hrest hfit
    | false =>
      have hm : env.mount (batch_device fs) mp (batch_flags env fs)
          (some fs.fs_vfstype) (some fs.fs_mntops) = 0 := by
        rcases hsm with h | h
        · rw [hs] at h; exact absurd h (by decide)
        · exact h
      rw [attempted_keep env fs rest hs] at hfit ⊢
      rw [List.length_cons, Nat.add_comm] at hfit
      have hfit1 : store_fits { w with trace := w.trace ++ [batch_call env fs] } 1 = true :=
        store_fits_mono w 1 _ hfit
      obtain ⟨hret, hafter⟩ := update_mtab_fits env fs.fs_spec fs.fs_file fs.fs_vfstype
        (batch_flags env fs) { w with trace := w.trace ++ [batch_call env fs] } hfit1
      obtain ⟨_, hcalls, _, hwm, hwr, _, _, hmt⟩ := update_mtab_cases env fs.fs_spec
        fs.fs_file fs.fs_vfstype (batch_flags env fs)
        { w with trace := w.trace ++ [batch_call env fs] }
      rcases mount_all_mounted env fs rest w mp hrp hs hm with ⟨_, h2⟩ | ⟨h1, _⟩
      · rw [h2]
        have hfit3 : store_fits (update_mtab env fs.fs_spec fs.fs_file (some fs.fs_vfstype)
            (batch_flags env fs) { w with trace := w.trace ++ [batch_call env fs] }).2
            (attempted env rest).length = true := by
          rw [hafter]
          exact hfit
        obtain ⟨i1, i2, i3, i4⟩ := ih _ hrest hfit3
        refine ⟨i1, ?_, ?_, fun j => ?_⟩
        · rw [i2, hcalls]
          simp [mount_calls_append, mount_calls_cons, mount_calls_nil, batch_call,
            Event.isMount]
        · rw [i3, hwm, hwr, hmt]
          by_cases hon : w.write_mtab ≠ 0 ∧ w.writable = true
          · simp only [if_pos hon, if_pos (And.intro hret hon)]
            simp [batch_row]
          · simp only [if_neg hon, if_neg (fun h => hon (And.right h))]
        · rw [i4, hafter, List.length_cons]
          show store_fits w _ = store_fits w _
          congr 1
          omega
      · rw [hret] at h1
        exact absurd h1 (by simp)

/-- A batch that gets through the entries before an entry, and ends at that entry: the
entry fails (its mount point has no canonical form, or its mount call does not return
0), or the store has no room for its row. The batch ends with the failure status, the
entries before that one that are not skipped are attempted, that entry is attempted
unless its mount point has no canonical form, and no later entry is. -/
theorem mount_all_ends_at (env : Env) (pre post : List fstab) (fs : fstab) (w : World)
    (hpre : ∀ g ∈ pre, entry_passes env g = true)
    (hfit : store_fits w (attempted env pre).length = true)
    (hend : entry_passes env fs = false ∨
      (skipped env fs = false ∧ store_fits w ((attempted env pre).length + 1) = false)) :
    exit_status (mount_all env (pre ++ fs :: post) w).1 = some EXIT_FAILURE ∧
    mount_calls (mount_all env (pre ++ fs :: post) w).2.trace =
      mount_calls w.trace ++ (attempted env pre).map (batch_call env) ++
        (if env.realpath fs.fs_file = none then [] else [batch_call env fs]) ∧
    (mount_all env (pre ++ fs :: post) w).2.mtab =
      (if w.write_mtab ≠ 0 ∧ w.writable = true then
        w.mtab ++ (attempted env pre).map (batch_row env)
       else w.mtab) := by
  obtain ⟨p1, p2, p3, p4⟩ := mount_all_all_pass env pre w hpre hfit
  have heq : mount_all env pre w = (Res.ret EXIT_SUCCESS, (mount_all env pre w).2) :=
    Prod.ext p1 rfl
  rw [mount_all_append env (fs :: post) pre w _ heq]
  cases hrp : env.realpath fs.fs_file with
  | none =>
    rw [mount_all_unresolved env fs post _ hrp]
    refine ⟨rfl, ?_, p3⟩
    show mount_calls (mount_all env pre w).2.trace = _
    rw [p2]
    simp
  | some mp =>
    have hnn : ¬ (some mp : Option CStr) = none := by simp
    rw [if_neg hnn]
    cases hs : skipped env fs with
    | true =>
      exfalso
      rcases hend with h | ⟨h, _⟩
      · have : entry_passes env fs = true :=
          (entry_passes_iff env fs).mpr ⟨mp, hrp, Or.inl hs⟩
        rw [this] at h
        exact absurd h (by decide)
      · rw [hs] at h
        exact absurd h (by decide)
    | false =>
      by_cases hm : env.mount (batch_device fs) mp (batch_flags env fs)
          (some fs.fs_vfstype) (some fs.fs_mntops) = 0
      · have hunfit : store_fits w ((attempted env pre).length + 1) = false := by
          rcases hend with h | ⟨_, h⟩
          · have : entry_passes env fs = true :=
              (entry_passes_iff env fs).mpr ⟨mp, hrp, Or.inr hm⟩
            rw [this] at h
            exact absurd h (by decide)
          · exact h
        have hunfit1 : store_fits
            { (mount_all env pre w).2 with
              trace := (mount_all env pre w).2.trace ++ [batch_call env fs] } 1 = false := by
          show store_fits (mount_all env pre w).2 1 = false
          rw [p4]
          exact hunfit
        have hexit := update_mtab_unfit env fs.fs_spec fs.fs_file fs.fs_vfstype
          (batch_flags env fs) _ hunfit1
        obtain ⟨_, hcalls, _, _, _, _, _, hmt⟩ := update_mtab_cases env fs.fs_spec
          fs.fs_file fs.fs_vfstype (batch_flags env fs)
          { (mount_all env pre w).2 with
            trace := (mount_all env pre w).2.trace ++ [batch_call env fs] }
        rcases mount_all_mounted env fs post (mount_all env pre w).2 mp hrp hs hm with
          ⟨h1, _⟩ | ⟨_, h2⟩
        · rw [hexit] at h1
          exact absurd h1 (by simp)
        · rw [h2]
          refine ⟨rfl, ?_, ?_⟩
          · rw [hcalls]
            show mount_calls ((mount_all env pre w).2.trace ++ [batch_call env fs]) = _
            rw [mount_calls_append, p2]
            simp [mount_calls_cons, mount_calls_nil, batch_call, Event.isMount]
          · rw [hmt, if_neg (by rw [hexit]; simp)]
            exact p3
      · rw [mount_all_failed env fs post _ mp hrp hs hm]
        refine ⟨rfl, ?_, p3⟩
        show mount_calls ((mount_all env pre w).2.trace ++ [batch_call env fs]) = _
        rw [mount_calls_append, p2]
        simp [mount_calls_cons, mount_calls_nil, batch_call, Event.isMount]

/-- A batch that gets through the entries before an entry that is not skipped and whose
mount point has a canonical form: the mount call of that entry is made, right after
those of the earlier entries. -/
theorem mount_all_reached (env : Env) (pre post : List fstab) (fs : fstab) (w : World)
    (mountpoint : CStr)
    (hpre : ∀ g ∈ pre, entry_passes env g = true)
    (hfit : store_fits w (attempted env pre).length = true)
    (hpath : env.realpath fs.fs_file = some mountpoint)
    (helig : skipped env fs = false) :
    ∃ n, mount_calls (mount_all env (pre ++ fs :: post) w).2.trace =
      mount_calls w.trace ++ (attempted env pre).map (batch_call env) ++
        batch_call env fs :: ((attempted env post).take n).map (batch_call env) := by
  obtain ⟨p1, p2, _, _⟩ := mount_all_all_pass env pre w hpre hfit
  have heq : mount_all env pre w = (Res.ret EXIT_SUCCESS, (mount_all env pre w).2) :=
    Prod.ext p1 rfl
  rw [mount_all_append env (fs :: post) pre w _ heq]
  have hstart : mount_calls ((mount_all env pre w).2.trace ++ [batch_call env fs]) =
      mount_calls w.trace ++ (attempted env pre).map (batch_call env) ++
        [batch_call env fs] := by
    rw [mount_calls_append, p2]
    simp [mount_calls_cons, mount_calls_nil, batch_call, Event.isMount]
  by_cases hm : env.mount (batch_device fs) mountpoint (batch_flags env fs)
      (some fs.fs_vfstype) (some fs.fs_mntops) = 0
  · have hcalls := (update_mtab_cases env fs.fs_spec fs.fs_file fs.fs_vfstype
      (batch_flags env fs)
      { (mount_all env pre w).2 with
        trace := (mount_all env pre w).2.trace ++ [batch_call env fs] }).2.1
    rcases mount_all_mounted env fs post (mount_all env pre w).2 mountpoint hpath helig hm
      with ⟨_, h2⟩ | ⟨_, h2⟩
    · rw [h2]
      obtain ⟨n, hn, _⟩ := mount_all_calls env post
        (update_mtab env fs.fs_spec fs.fs_file (some fs.fs_vfstype) (batch_flags env fs)
          { (mount_all env pre w).2 with
            trace := (mount_all env pre w).2.trace ++ [batch_call env fs] }).2
      refine ⟨n, ?_⟩
      rw [hn, hcalls]
      show mount_calls ((mount_all env pre w).2.trace ++ [batch_call env fs]) ++ _ = _
      rw [hstart]
      simp
    · rw [h2]
      refine ⟨0, ?_⟩
      rw [hcalls]
      show mount_calls ((mount_all env pre w).2.trace ++ [batch_call env fs]) = _
      rw [hstart]
      simp
  · rw [mount_all_failed env fs post _ mountpoint hpath helig hm]
    refine ⟨0, ?_⟩
    show mount_calls ((mount_all env pre w).2.trace ++ [batch_call env fs]) = _
    rw [hstart]
    simp

/-! ## The claims -/

/-- C1, as stated, fails for the empty keyword: splitting `a,,b` at its commas gives an
empty piece between the two commas, and `has_opt("a,,b", "")` returns 0. -/
theorem has_opt_misses_empty_piece :
    ¬ ((∃ v, has_opt "a,,b".toList [] = some v ∧ v ≠ 0) ↔
        [] ∈ comma_split "a,,b".toList) := by
  intro h
  obtain ⟨v, hv, hne⟩ := h.mpr (by decide)
  have h0 : has_opt "a,,b".toList [] = some 0 := by decide
  rw [h0] at hv
  exact hne (Option.some.inj hv).symm

/-- C1, amended: for every option string `s` and keyword `k`, `has_opt(s, k)` returns,
and it returns non-zero if and only if `k` is not empty and is exactly equal to one of
the pieces obtained by splitting `s` at its commas. -/
theorem has_opt_iff_nonempty_piece (s k : CStr) :
    ∃ v, has_opt s k = some v ∧ (v ≠ 0 ↔ (k ≠ [] ∧ k ∈ comma_split s)) := by
  refine ⟨if k ∈ tokens s then 1 else 0, has_opt_eq s k, ?_⟩
  rw [← mem_tokens]
  by_cases h : k ∈ tokens s <;> simp [h]

/-- C2: for every keyword `k`, the empty keyword included, `has_opt("", k)` returns 0. -/
theorem has_opt_of_empty_string (k : CStr) : has_opt [] k = some 0 := by
  simp [has_opt, has_opt_loop, strtok]

/-- C3: with recording on, a table that loads and room for one more entry,
`update_mtab` returns after it has staged the loaded entries unchanged and in order,
then the one new entry (device, mount point, version tag, `ro` if the read-only flag
is set and `rw` otherwise), and then has called the commit; the staged buffer is the
loaded table followed by the new entry, and where the commit goes through this is the
persisted table, whose first entries are the loaded table. -/
theorem update_mtab_rewrites_and_appends (env : Env) (dev mountpoint t : CStr)
    (mountflags : Nat) (w : World) (hrec : w.write_mtab ≠ 0) (hload : w.readable = true)
    (hroom : w.mtab.length + 1 ≤ w.capacity) :
    (update_mtab env dev mountpoint (some t) mountflags w).1 = Res.ret () ∧
    (update_mtab env dev mountpoint (some t) mountflags w).2.trace =
      w.trace ++ [Event.load_mtab] ++
        (w.mtab ++
          [MtabEntry.mk dev mountpoint (version_tag t)
            (if mountflags &&& env.MS_RDONLY ≠ 0 then "ro".toList else "rw".toList)]).map
          Event.put_mtab_entry ++
        [Event.rewrite_mtab] ∧
    (update_mtab env dev mountpoint (some t) mountflags w).2.outbuf =
      w.mtab ++
        [MtabEntry.mk dev mountpoint (version_tag t)
          (if mountflags &&& env.MS_RDONLY ≠ 0 then "ro".toList else "rw".toList)] ∧
    (w.writable = true →
      (update_mtab env dev mountpoint (some t) mountflags w).2.mtab =
        w.mtab ++
          [MtabEntry.mk dev mountpoint (version_tag t)
            (if mountflags &&& env.MS_RDONLY ≠ 0 then "ro".toList else "rw".toList)] ∧
      (update_mtab env dev mountpoint (some t) mountflags w).2.mtab.take w.mtab.length =
        w.mtab) := by
  have hv : new_row env dev mountpoint t mountflags =
      MtabEntry.mk dev mountpoint (version_tag t)
        (if mountflags &&& env.MS_RDONLY ≠ 0 then "ro".toList else "rw".toList) := by
    simp only [new_row, version_tag, MINIX_FS_TYPE, Nat.lt_succ_iff]
  rw [update_mtab_eq env dev mountpoint t mountflags w hrec hload, if_pos hroom, hv]
  refine ⟨rfl, ?_, rfl, fun hwr => ?_⟩
  · simp
  · simp [hwr]

/-- C3 at a sample input. -/
theorem update_mtab_rewrites_and_appends_witness :
    (update_mtab sample_env "/dev/c0d1".toList "/mnt".toList (some "mfs".toList) 0
        sample_world).2.outbuf =
      sample_world.mtab ++
        [MtabEntry.mk "/dev/c0d1".toList "/mnt".toList (version_tag "mfs".toList)
          (if 0 &&& sample_env.MS_RDONLY ≠ 0 then "ro".toList else "rw".toList)] :=
  (update_mtab_rewrites_and_appends sample_env "/dev/c0d1".toList "/mnt".toList
    "mfs".toList 0 sample_world (by decide) (by decide) (by decide)).2.2.1

/-- C4: the version tag in the entry that `update_mtab` adds is `MFSv3` if the type is
`mfs`, otherwise the type itself if it has at most 9 characters, otherwise `-`; it
never has more than 9 characters. -/
theorem update_mtab_version_tag (env : Env) (dev mountpoint t : CStr) (mountflags : Nat)
    (w : World) (hrec : w.write_mtab ≠ 0) (hload : w.readable = true)
    (hroom : w.mtab.length + 1 ≤ w.capacity) :
    ∃ row, (update_mtab env dev mountpoint (some t) mountflags w).2.outbuf.getLast? =
        some row ∧
      Event.put_mtab_entry row ∈
        (update_mtab env dev mountpoint (some t) mountflags w).2.trace ∧
      row.special = dev ∧ row.mounted_on = mountpoint ∧
      row.version =
        (if t = "mfs".toList then "MFSv3".toList
         else if t.length ≤ 9 then t else "-".toList) ∧
      row.version.length ≤ 9 := by
  rw [update_mtab_eq env dev mountpoint t mountflags w hrec hload, if_pos hroom]
  refine ⟨new_row env dev mountpoint t mountflags, by simp, by simp, rfl, rfl, ?_, ?_⟩
  · simp only [new_row, MINIX_FS_TYPE, Nat.lt_succ_iff]
  · simp only [new_row]
    split
    · decide
    · split
      · omega
      · decide

/-- C4 at a sample input: a type of ten characters is recorded as `-`. -/
theorem update_mtab_version_tag_witness :
    ∃ row, (update_mtab sample_env "/dev/c0d1".toList "/mnt".toList
          (some "abcdefghij".toList) 0 sample_world).2.outbuf.getLast? = some row ∧
      Event.put_mtab_entry row ∈
        (update_mtab sample_env "/dev/c0d1".toList "/mnt".toList
          (some "abcdefghij".toList) 0 sample_world).2.trace ∧
      row.special = "/dev/c0d1".toList ∧ row.mounted_on = "/mnt".toList ∧
      row.version =
        (if "abcdefghij".toList = "mfs".toList then "MFSv3".toList
         else if "abcdefghij".toList.length ≤ 9 then "abcdefghij".toList else "-".toList) ∧
      row.version.length ≤ 9 :=
  update_mtab_version_tag sample_env "/dev/c0d1".toList "/mnt".toList "abcdefghij".toList 0
    sample_world (by decide) (by decide) (by decide)

/-- C5: in a single mount there is one mount call. If the device is `none` or the type
is an explicit one other than `mfs`, the call gets the requested type and `fsversion`
is not called. Otherwise `fsversion` is called once, and the call gets `mfs` when the
probe returns one of the three MFS tags, `ext2` when it returns the ext2 tag, and the
requested type (absent, maybe) for any other probe result. -/
theorem main_type_resolution (env : Env) (etc_fstab : List fstab) (mountflags : Nat)
    (type args : Option CStr) (argv1 argv2 : CStr) (w : World) (hdev : argv1 ≠ [])
    (hext : env.FSVERSION_EXT2 ≠ env.FSVERSION_MFS1 ∧
      env.FSVERSION_EXT2 ≠ env.FSVERSION_MFS2 ∧ env.FSVERSION_EXT2 ≠ env.FSVERSION_MFS3) :
    ∃ type1,
      mount_calls (main env etc_fstab false mountflags type args [argv1, argv2] w).2.trace =
        mount_calls w.trace ++
          [Event.mount (if argv1 = "none".toList then none else some argv1) argv2 mountflags
            type1 args] ∧
      (argv1 = "none".toList ∨ (∃ t, type = some t ∧ t ≠ "mfs".toList) →
        type1 = type ∧
        probe_calls (main env etc_fstab false mountflags type args [argv1, argv2] w).2.trace =
          probe_calls w.trace) ∧
      (argv1 ≠ "none".toList ∧ (type = none ∨ type = some "mfs".toList) →
        probe_calls (main env etc_fstab false mountflags type args [argv1, argv2] w).2.trace =
          probe_calls w.trace ++ [Event.fsversion argv1] ∧
        (env.fsversion argv1 = env.FSVERSION_MFS1 ∨ env.fsversion argv1 = env.FSVERSION_MFS2 ∨
          env.fsversion argv1 = env.FSVERSION_MFS3 → type1 = some "mfs".toList) ∧
        (env.fsversion argv1 = env.FSVERSION_EXT2 → type1 = some "ext2".toList) ∧
        (env.fsversion argv1 ≠ env.FSVERSION_MFS1 ∧ env.fsversion argv1 ≠ env.FSVERSION_MFS2 ∧
          env.fsversion argv1 ≠ env.FSVERSION_MFS3 ∧
          env.fsversion argv1 ≠ env.FSVERSION_EXT2 → type1 = type)) := by
  obtain ⟨hcalls, hprobes⟩ := main_calls env etc_fstab mountflags type args argv1 argv2 w hdev
  refine ⟨resolved_type env type argv1, hcalls, ?_, ?_⟩
  · intro h
    have hp : probed type argv1 = false := by
      apply decide_eq_false
      rintro ⟨h1, h2⟩
      rcases h with h | ⟨t, ht, hne⟩
      · exact h2 h
      · rcases h1 with h1 | h1
        · rw [h1] at ht
          exact Option.noConfusion ht
        · rw [h1] at ht
          exact hne (Option.some.inj ht).symm
    rw [hprobes, resolved_type, hp]
    simp
  · rintro ⟨h2, h1⟩
    have hp : probed type argv1 = true := decide_eq_true ⟨h1, h2⟩
    rw [hprobes, resolved_type, hp]
    refine ⟨by simp, fun hv => ?_, fun hv => ?_, fun hv => ?_⟩
    · rw [if_pos rfl, if_pos hv]
      rfl
    · have hn : ¬ (env.fsversion argv1 = env.FSVERSION_MFS1 ∨
          env.fsversion argv1 = env.FSVERSION_MFS2 ∨
          env.fsversion argv1 = env.FSVERSION_MFS3) := by
        rw [hv]
        rintro (h | h | h)
        · exact hext.1 h
        · exact hext.2.1 h
        · exact hext.2.2 h
      rw [if_pos rfl, if_neg hn, if_pos hv]
    · have hn : ¬ (env.fsversion argv1 = env.FSVERSION_MFS1 ∨
          env.fsversion argv1 = env.FSVERSION_MFS2 ∨
          env.fsversion argv1 = env.FSVERSION_MFS3) := by
        rintro (h | h | h)
        · exact hv.1 h
        · exact hv.2.1 h
        · exact hv.2.2.1 h
      rw [if_pos rfl, if_neg hn, if_neg hv.2.2.2]

/-- C5 at a sample input: no type is given, the probe reports MFS version 3, and the
mount call gets the type `mfs`. -/
theorem main_type_resolution_witness :
    ∃ type1,
      mount_calls (main sample_env [] false 0 none none
          ["/dev/c0d1".toList, "/mnt".toList] sample_world).2.trace =
        mount_calls sample_world.trace ++
          [Event.mount (if "/dev/c0d1".toList = "none".toList then none
            else some "/dev/c0d1".toList) "/mnt".toList 0 type1 none] ∧
      type1 = some "mfs".toList :=
  (main_type_resolution sample_env [] 0 none none "/dev/c0d1".toList "/mnt".toList
    sample_world (by decide) (by decide)).imp
    (fun _ h => ⟨h.1, (h.2.2 ⟨by decide, Or.inl rfl⟩).2.1 (by decide)⟩)

/-- C6, as stated, fails: with a mount call that fails on the device `d2`, the entry
for `d3` that follows it in the fstab is not skipped (it has no `noauto`, its mount point
is not the root), and `mount_all` makes no mount call for it. -/
theorem mount_all_leaves_entry_unattempted :
    skipped failing_env ⟨"d3".toList, "/b".toList, "fsX".toList, "rw".toList⟩ = false ∧
    batch_call failing_env ⟨"d3".toList, "/b".toList, "fsX".toList, "rw".toList⟩ ∉
      (mount_all failing_env
        [⟨"d2".toList, "/a".toList, "fsX".toList, "rw".toList⟩,
         ⟨"d3".toList, "/b".toList, "fsX".toList, "rw".toList⟩] sample_world).2.trace ∧
    mount_calls (mount_all failing_env
        [⟨"d2".toList, "/a".toList, "fsX".toList, "rw".toList⟩,
         ⟨"d3".toList, "/b".toList, "fsX".toList, "rw".toList⟩] sample_world).2.trace =
      [Event.mount (some "d2".toList) "/a".toList 0 (some "fsX".toList)
        (some "rw".toList)] := by
  decide

/-- C6, amended: `mount_all` makes no mount call and adds no row for an entry that has
the token `noauto` or the root as canonical mount point, and it attempts every other
entry, in fstab order, except the entries after the one at which the batch ends. In
full: the mount calls and the added rows are always those of entries that are not
skipped, in fstab order. When no entry fails and the store has room, the batch returns
success and every entry that is not skipped is attempted, and its row added when
recording is on and the commits go through. When the batch gets through the entries
before an entry and that entry fails, or the store has no room for its row, the batch
ends with the failure status: the entries before it that are not skipped are attempted,
the entry itself is attempted unless its mount point has no canonical form, and no
later entry is. For the fstab `[(d1, /a, fsX, noauto), (d2, /, fsX, ""), (d3, /b, fsX,
ro)]` with a succeeding mount call, the only mount call is the one for `d3`, and the row
added for it has the access mode `ro`. -/
theorem mount_all_skips_noauto_and_root :
    (∀ (env : Env) (table : List fstab) (w : World),
      ∃ n m,
        mount_calls (mount_all env table w).2.trace =
          mount_calls w.trace ++ ((attempted env table).take n).map (batch_call env) ∧
        (mount_all env table w).2.mtab =
          w.mtab ++ ((attempted env table).take m).map (batch_row env) ∧
        ((mount_all env table w).1 = Res.ret EXIT_SUCCESS →
          (attempted env table).length ≤ n)) ∧
    (∀ (env : Env) (table : List fstab) (w : World),
      (∀ fs ∈ table, entry_passes env fs = true) →
      store_fits w (attempted env table).length = true →
      (mount_all env table w).1 = Res.ret EXIT_SUCCESS ∧
      mount_calls (mount_all env table w).2.trace =
        mount_calls w.trace ++ (attempted env table).map (batch_call env) ∧
      (mount_all env table w).2.mtab =
        (if w.write_mtab ≠ 0 ∧ w.writable = true then
          w.mtab ++ (attempted env table).map (batch_row env)
         else w.mtab)) ∧
    (∀ (env : Env) (pre post : List fstab) (fs : fstab) (w : World),
      (∀ g ∈ pre, entry_passes env g = true) →
      store_fits w (attempted env pre).length = true →
      (entry_passes env fs = false ∨
        (skipped env fs = false ∧
          store_fits w ((attempted env pre).length + 1) = false)) →
      exit_status (mount_all env (pre ++ fs :: post) w).1 = some EXIT_FAILURE ∧
      mount_calls (mount_all env (pre ++ fs :: post) w).2.trace =
        mount_calls w.trace ++ (attempted env pre).map (batch_call env) ++
          (if env.realpath fs.fs_file = none then [] else [batch_call env fs]) ∧
      (mount_all env (pre ++ fs :: post) w).2.mtab =
        (if w.write_mtab ≠ 0 ∧ w.writable = true then
          w.mtab ++ (attempted env pre).map (batch_row env)
         else w.mtab)) ∧
    (∀ (env : Env) (w : World),
      (∀ special name mountflags type args,
        env.mount special name mountflags type args = 0) →
      env.realpath "/a".toList = some "/a".toList →
      env.realpath "/".toList = some "/".toList →
      env.realpath "/b".toList = some "/b".toList →
      env.MS_RDONLY ≠ 0 →
      w.write_mtab ≠ 0 → w.readable = true → w.writable = true →
      w.mtab.length + 1 ≤ w.capacity →
      (mount_all env scenario_table w).1 = Res.ret EXIT_SUCCESS ∧
      mount_calls (mount_all env scenario_table w).2.trace =
        mount_calls w.trace ++
          [Event.mount (some "d3".toList) "/b".toList env.MS_RDONLY (some "fsX".toList)
            (some "ro".toList)] ∧
      (mount_all env scenario_table w).2.mtab =
        w.mtab ++
          [MtabEntry.mk "d3".toList "/b".toList "fsX".toList "ro".toList]) := by
  refine ⟨?_, ?_, ?_, ?_⟩
  · intro env table w
    obtain ⟨n, h1, h2⟩ := mount_all_calls env table w
    obtain ⟨m, h3, _⟩ := mount_all_mtab env table w
    exact ⟨n, m, h1, h3, h2⟩
  · intro env table w hall hfit
    obtain ⟨h1, h2, h3, _⟩ := mount_all_all_pass env table w hall hfit
    exact ⟨h1, h2, h3⟩
  · intro env pre post fs w hpre hfit hend
    exact mount_all_ends_at env pre post fs w hpre hfit hend
  · intro env w hm hra hroot hrb hro hrec hload hwr hroom
    have s1 : skipped env ⟨"d1".toList, "/a".toList, "fsX".toList, "noauto".toList⟩ = true := by
      unfold skipped
      rw [Bool.or_eq_true]
      exact Or.inl (decide_eq_true (by decide))
    have s2 : skipped env ⟨"d2".toList, "/".toList, "fsX".toList, []⟩ = true := by
      unfold skipped
      rw [Bool.or_eq_true]
      exact Or.inr (decide_eq_true hroot)
    have s3 : skipped env ⟨"d3".toList, "/b".toList, "fsX".toList, "ro".toList⟩ = false := by
      unfold skipped
      rw [Bool.or_eq_false_iff]
      refine ⟨decide_eq_false (by decide), decide_eq_false ?_⟩
      show ¬ env.realpath "/b".toList = some "/".toList
      rw [hrb]
      decide
    have hfl : batch_flags env ⟨"d3".toList, "/b".toList, "fsX".toList, "ro".toList⟩ =
        env.MS_RDONLY := by
      unfold batch_flags
      rw [if_pos (by decide)]
    have hrow : new_row env "d3".toList "/b".toList "fsX".toList env.MS_RDONLY =
        MtabEntry.mk "d3".toList "/b".toList "fsX".toList "ro".toList := by
      unfold new_row
      rw [if_neg (by decide), if_pos (by decide), Nat.and_self, if_pos hro]
    have hcall : batch_call env ⟨"d3".toList, "/b".toList, "fsX".toList, "ro".toList⟩ =
        Event.mount (some "d3".toList) "/b".toList env.MS_RDONLY (some "fsX".toList)
          (some "ro".toList) := by
      unfold batch_call
      rw [hfl]
      show Event.mount _ ((env.realpath "/b".toList).getD []) _ _ _ = _
      rw [hrb]
      rfl
    unfold scenario_table
    rw [mount_all_skip env _ _ w _ hra s1, mount_all_skip env _ _ w _ hroot s2]
    have hu := update_mtab_eq env "d3".toList "/b".toList "fsX".toList env.MS_RDONLY
      { w with trace := w.trace ++
          [Event.mount (some "d3".toList) "/b".toList env.MS_RDONLY (some "fsX".toList)
            (some "ro".toList)] } hrec hload
    rw [if_pos hroom, hrow] at hu
    rcases mount_all_mounted env ⟨"d3".toList, "/b".toList, "fsX".toList, "ro".toList⟩ [] w
      "/b".toList hrb s3 (hm _ _ _ _ _) with ⟨_, h2⟩ | ⟨h1, _⟩
    · rw [hfl, hcall] at h2
      rw [h2]
      simp only [hu]
      refine ⟨rfl, ?_, ?_⟩
      · simp only [mount_all, mount_calls_append, mount_calls_cons, mount_calls_puts,
          mount_calls_nil, Event.isMount]
        simp
      · simp [mount_all, hwr]
    · rw [hfl, hcall] at h1
      simp only [hu] at h1
      exact absurd h1 (by simp)

/-- C6, amended, at sample inputs: the scenario ends with success and `d3` alone is
attempted; with a mount call that fails on `d2`, the entry before it is attempted, the
entry itself is, and the entry after it is not. -/
theorem mount_all_skips_noauto_and_root_witness :
    ((mount_all sample_env scenario_table sample_world).1 = Res.ret EXIT_SUCCESS ∧
      mount_calls (mount_all sample_env scenario_table sample_world).2.trace =
        mount_calls sample_world.trace ++
          [Event.mount (some "d3".toList) "/b".toList sample_env.MS_RDONLY
            (some "fsX".toList) (some "ro".toList)] ∧
      (mount_all sample_env scenario_table sample_world).2.mtab =
        sample_world.mtab ++
          [MtabEntry.mk "d3".toList "/b".toList "fsX".toList "ro".toList]) ∧
    mount_calls (mount_all failing_env
      ([⟨"d1".toList, "/a".toList, "fsX".toList, "rw".toList⟩] ++
        ⟨"d2".toList, "/b".toList, "fsX".toList, "rw".toList⟩ ::
          [⟨"d3".toList, "/c".toList, "fsX".toList, "rw".toList⟩])
      sample_world).2.trace =
      [Event.mount (some "d1".toList) "/a".toList 0 (some "fsX".toList)
        (some "rw".toList),
       Event.mount (some "d2".toList) "/b".toList 0 (some "fsX".toList)
        (some "rw".toList)] ∧
    (mount_all sample_env scenario_table sample_world).2.mtab =
      (if sample_world.write_mtab ≠ 0 ∧ sample_world.writable = true then
        sample_world.mtab ++ (attempted sample_env scenario_table).map (batch_row sample_env)
       else sample_world.mtab) :=
  ⟨mount_all_skips_noauto_and_root.2.2.2 sample_env sample_world (fun _ _ _ _ _ => rfl) rfl
      rfl rfl (by decide) (by decide) rfl rfl (by decide),
    ((mount_all_skips_noauto_and_root.2.2.1 failing_env
      [⟨"d1".toList, "/a".toList, "fsX".toList, "rw".toList⟩]
      [⟨"d3".toList, "/c".toList, "fsX".toList, "rw".toList⟩]
      ⟨"d2".toList, "/b".toList, "fsX".toList, "rw".toList⟩ sample_world
      (by decide) (by decide) (Or.inl (by decide))).2.1).trans (by decide),
    (mount_all_skips_noauto_and_root.2.1 sample_env scenario_table sample_world
      (by decide) (by decide)).2.2⟩

/-- C7: for every fstab in which the mount call fails on an entry that is not skipped,
`mount_all` ends with the failure status; its mount calls are those of entries up to
that one, so no later entry is attempted, and the rows it has added to the mount table
are rows of entries before that one. When the entries before that one are processed
with success, `mount_all` returns `EXIT_FAILURE` with the failed call as its last call
and the mount table as the earlier entries left it. -/
theorem mount_all_stops_at_first_failure (env : Env) (pre post : List fstab) (fs : fstab)
    (w : World) (mountpoint : CStr)
    (hpath : env.realpath fs.fs_file = some mountpoint)
    (helig : skipped env fs = false)
    (hfail : env.mount (batch_device fs) mountpoint (batch_flags env fs)
      (some fs.fs_vfstype) (some fs.fs_mntops) ≠ 0) :
    exit_status (mount_all env (pre ++ fs :: post) w).1 = some EXIT_FAILURE ∧
    (∃ n, mount_calls (mount_all env (pre ++ fs :: post) w).2.trace =
      mount_calls w.trace ++
        ((attempted env (pre ++ [fs])).take n).map (batch_call env)) ∧
    (∃ m, (mount_all env (pre ++ fs :: post) w).2.mtab =
      w.mtab ++ ((attempted env pre).take m).map (batch_row env)) ∧
    (∀ w1, mount_all env pre w = (Res.ret EXIT_SUCCESS, w1) →
      (mount_all env (pre ++ fs :: post) w).1 = Res.ret EXIT_FAILURE ∧
      (mount_all env (pre ++ fs :: post) w).2.trace =
        w1.trace ++
          [Event.mount (batch_device fs) mountpoint (batch_flags env fs)
            (some fs.fs_vfstype) (some fs.fs_mntops)] ∧
      (mount_all env (pre ++ fs :: post) w).2.mtab = w1.mtab) := by
  obtain ⟨h1, h2, h3⟩ :=
    mount_all_before_failure env fs post mountpoint hpath helig hfail pre w
  refine ⟨h1, h2, h3, fun w1 hpre => ?_⟩
  rw [mount_all_append env (fs :: post) pre w w1 hpre,
    mount_all_failed env fs post w1 mountpoint hpath helig hfail]
  refine ⟨rfl, ?_, rfl⟩
  simp [std_err, batch_call, hpath]

/-- C7 at a sample input: the mount call fails on the second of three entries. -/
theorem mount_all_stops_at_first_failure_witness :
    (mount_all failing_env
      ([⟨"d1".toList, "/a".toList, "fsX".toList, "rw".toList⟩] ++
        ⟨"d2".toList, "/b".toList, "fsX".toList, "rw".toList⟩ ::
          [⟨"d3".toList, "/c".toList, "fsX".toList, "rw".toList⟩])
      sample_world).1 = Res.ret EXIT_FAILURE ∧
    (mount_all failing_env
      ([⟨"d1".toList, "/a".toList, "fsX".toList, "rw".toList⟩] ++
        ⟨"d2".toList, "/b".toList, "fsX".toList, "rw".toList⟩ ::
          [⟨"d3".toList, "/c".toList, "fsX".toList, "rw".toList⟩])
      sample_world).2.mtab =
      sample_world.mtab ++
        [MtabEntry.mk "d1".toList "/a".toList "fsX".toList "rw".toList] :=
  have h := (mount_all_stops_at_first_failure failing_env
    [⟨"d1".toList, "/a".toList, "fsX".toList, "rw".toList⟩]
    [⟨"d3".toList, "/c".toList, "fsX".toList, "rw".toList⟩]
    ⟨"d2".toList, "/b".toList, "fsX".toList, "rw".toList⟩ sample_world
    "/b".toList rfl (by decide) (by decide)).2.2.2
    (mount_all failing_env [⟨"d1".toList, "/a".toList, "fsX".toList, "rw".toList⟩]
      sample_world).2 (by decide)
  ⟨h.1, h.2.2.trans (by decide)⟩

/-- C8, where the code breaks it: in the sample world with a mount table that cannot be
replaced, the commit of `update_mtab` fails, and the single mount and the batch still
end with the success status, the persisted table being as it was. -/
theorem main_ignores_failed_commit :
    (rewrite_mtab unwritable_world).1 < 0 ∧
    (main sample_env [] false 0 none none ["/dev/c0d1".toList, "/mnt".toList]
      unwritable_world).1 = Res.ret EXIT_SUCCESS ∧
    Event.rewrite_mtab ∈
      (main sample_env [] false 0 none none ["/dev/c0d1".toList, "/mnt".toList]
        unwritable_world).2.trace ∧
    (main sample_env [] false 0 none none ["/dev/c0d1".toList, "/mnt".toList]
      unwritable_world).2.mtab = unwritable_world.mtab ∧
    (main sample_env scenario_table true 0 none none [] unwritable_world).1 =
      Res.ret EXIT_SUCCESS ∧
    (main sample_env scenario_table true 0 none none [] unwritable_world).2.mtab =
      unwritable_world.mtab := by
  decide

/-- C9: with recording on and a table that loads, if the table store has no room for
the loaded entries and the new one, `update_mtab` ends the process with status 1; it
has called the staging step for the entries up to the first one that does not fit and
nothing after it, so the commit is not called, and the persisted table is as it was. -/
theorem update_mtab_overflow_aborts (env : Env) (dev mountpoint t : CStr)
    (mountflags : Nat) (w : World) (hrec : w.write_mtab ≠ 0) (hload : w.readable = true)
    (hfull : w.capacity < w.mtab.length + 1) :
    (update_mtab env dev mountpoint (some t) mountflags w).1 = Res.exit 1 ∧
    (update_mtab env dev mountpoint (some t) mountflags w).2.trace =
      w.trace ++ Event.load_mtab ::
        ((w.mtab ++ [new_row env dev mountpoint t mountflags]).take (w.capacity + 1)).map
          Event.put_mtab_entry ∧
    (Event.rewrite_mtab ∉ w.trace →
      Event.rewrite_mtab ∉ (update_mtab env dev mountpoint (some t) mountflags w).2.trace) ∧
    (update_mtab env dev mountpoint (some t) mountflags w).2.mtab = w.mtab := by
  rw [update_mtab_eq env dev mountpoint t mountflags w hrec hload,
    if_neg (Nat.not_le.mpr hfull)]
  refine ⟨rfl, rfl, fun h => ?_, rfl⟩
  simp only [List.mem_append, List.mem_cons, List.mem_map, not_or]
  refine ⟨h, by simp, ?_⟩
  rintro ⟨e, _, he⟩
  exact Event.noConfusion he

/-- C9 at a sample input: the table store holds one entry, the table has one. -/
theorem update_mtab_overflow_aborts_witness :
    (update_mtab sample_env "/dev/c0d1".toList "/mnt".toList (some "mfs".toList) 0
      full_world).1 = Res.exit 1 ∧
    (update_mtab sample_env "/dev/c0d1".toList "/mnt".toList (some "mfs".toList) 0
      full_world).2.mtab = full_world.mtab :=
  have h := update_mtab_overflow_aborts sample_env "/dev/c0d1".toList "/mnt".toList
    "mfs".toList 0 full_world (by decide) (by decide) (by decide)
  ⟨h.1, h.2.2.2⟩

/-- C10: the single mount makes one mount call, and its device is absent when the
device argument is `none` and is the device argument otherwise. In the batch, every
mount call is that of an entry that is not skipped, with an absent device when the
device of the entry is `none` and with the device of the entry otherwise; when no
entry fails and the store has room, every entry that is not skipped gets its call, in
fstab order; and when the batch gets through the entries before an entry that is not
skipped and whose mount point has a canonical form, the call for that entry is made,
right after those of the earlier entries, with that device. -/
theorem none_device_is_absent :
    (∀ (env : Env) (etc_fstab : List fstab) (mountflags : Nat) (type args : Option CStr)
      (argv1 argv2 : CStr) (w : World), argv1 ≠ [] →
      ∃ type1,
        mount_calls
            (main env etc_fstab false mountflags type args [argv1, argv2] w).2.trace =
          mount_calls w.trace ++
            [Event.mount (if argv1 = "none".toList then none else some argv1) argv2
              mountflags type1 args]) ∧
    (∀ (env : Env) (etc_fstab : List fstab) (mountflags : Nat) (type args : Option CStr)
      (argv : List CStr) (w : World),
      ∃ n,
        mount_calls (main env etc_fstab true mountflags type args argv w).2.trace =
          mount_calls w.trace ++
            ((attempted env etc_fstab).take n).map
              (fun fs =>
                Event.mount (if fs.fs_spec = "none".toList then none else some fs.fs_spec)
                  ((env.realpath fs.fs_file).getD []) (batch_flags env fs)
                  (some fs.fs_vfstype) (some fs.fs_mntops)) ∧
        ((main env etc_fstab true mountflags type args argv w).1 = Res.ret EXIT_SUCCESS →
          (attempted env etc_fstab).length ≤ n)) ∧
    (∀ (env : Env) (etc_fstab : List fstab) (mountflags : Nat) (type args : Option CStr)
      (argv : List CStr) (w : World),
      (∀ fs ∈ etc_fstab, entry_passes env fs = true) →
      store_fits w (attempted env etc_fstab).length = true →
      (main env etc_fstab true mountflags type args argv w).1 = Res.ret EXIT_SUCCESS ∧
      mount_calls (main env etc_fstab true mountflags type args argv w).2.trace =
        mount_calls w.trace ++
          (attempted env etc_fstab).map
            (fun fs =>
              Event.mount (if fs.fs_spec = "none".toList then none else some fs.fs_spec)
                ((env.realpath fs.fs_file).getD []) (batch_flags env fs)
                (some fs.fs_vfstype) (some fs.fs_mntops))) ∧
    (∀ (env : Env) (pre post : List fstab) (fs : fstab) (mountflags : Nat)
      (type args : Option CStr) (argv : List CStr) (w : World) (mountpoint : CStr),
      (∀ g ∈ pre, entry_passes env g = true) →
      store_fits w (attempted env pre).length = true →
      env.realpath fs.fs_file = some mountpoint →
      skipped env fs = false →
      ∃ n,
        mount_calls
            (main env (pre ++ fs :: post) true mountflags type args argv w).2.trace =
          mount_calls w.trace ++
            (attempted env pre).map
              (fun g =>
                Event.mount (if g.fs_spec = "none".toList then none else some g.fs_spec)
                  ((env.realpath g.fs_file).getD []) (batch_flags env g)
                  (some g.fs_vfstype) (some g.fs_mntops)) ++
            Event.mount (if fs.fs_spec = "none".toList then none else some fs.fs_spec)
                mountpoint (batch_flags env fs) (some fs.fs_vfstype) (some fs.fs_mntops) ::
              ((attempted env post).take n).map
                (fun g =>
                  Event.mount (if g.fs_spec = "none".toList then none else some g.fs_spec)
                    ((env.realpath g.fs_file).getD []) (batch_flags env g)
                    (some g.fs_vfstype) (some g.fs_mntops))) := by
  have hmain : ∀ (env : Env) (etc_fstab : List fstab) (mountflags : Nat)
      (type args : Option CStr) (argv : List CStr) (w : World),
      main env etc_fstab true mountflags type args argv w = mount_all env etc_fstab w := by
    intro env etc_fstab mountflags type args argv w
    simp [main]
  refine ⟨?_, ?_, ?_, ?_⟩
  · intro env etc_fstab mountflags type args argv1 argv2 w hdev
    exact ⟨resolved_type env type argv1,
      (main_calls env etc_fstab mountflags type args argv1 argv2 w hdev).1⟩
  · intro env etc_fstab mountflags type args argv w
    rw [hmain]
    exact mount_all_calls env etc_fstab w
  · intro env etc_fstab mountflags type args argv w hall hfit
    rw [hmain]
    obtain ⟨h1, h2, _, _⟩ := mount_all_all_pass env etc_fstab w hall hfit
    exact ⟨h1, h2⟩
  · intro env pre post fs mountflags type args argv w mountpoint hpre hfit hpath helig
    rw [hmain]
    obtain ⟨n, hn⟩ := mount_all_reached env pre post fs w mountpoint hpre hfit hpath helig
    have hb : batch_call env fs =
        Event.mount (if fs.fs_spec = "none".toList then none else some fs.fs_spec)
          mountpoint (batch_flags env fs) (some fs.fs_vfstype) (some fs.fs_mntops) := by
      unfold batch_call batch_device
      rw [hpath]
      rfl
    rw [hb] at hn
    exact ⟨n, hn⟩

/-- C10 at sample inputs: the device argument `none` of a single mount reaches the mount
call as an absent device, and in a batch the device `none` of the first entry does so
too, while the device `d1` of the second entry is passed as it is. -/
theorem none_device_is_absent_witness :
    (∃ type1,
      mount_calls
          (main sample_env [] false 0 (some "procfs".toList) none
            ["none".toList, "/proc".toList] sample_world).2.trace =
        mount_calls sample_world.trace ++
          [Event.mount (if "none".toList = "none".toList then none else some "none".toList)
            "/proc".toList 0 type1 none]) ∧
    mount_calls
        (main sample_env
          [⟨"none".toList, "/proc".toList, "procfs".toList, "rw".toList⟩,
           ⟨"d1".toList, "/a".toList, "fsX".toList, "rw".toList⟩]
          true 0 none none [] sample_world).2.trace =
      [Event.mount none "/proc".toList 0 (some "procfs".toList) (some "rw".toList),
       Event.mount (some "d1".toList) "/a".toList 0 (some "fsX".toList)
        (some "rw".toList)] :=
  ⟨none_device_is_absent.1 sample_env [] 0 (some "procfs".toList) none "none".toList
      "/proc".toList sample_world (by decide),
    ((none_device_is_absent.2.2.1 sample_env
      [⟨"none".toList, "/proc".toList, "procfs".toList, "rw".toList⟩,
       ⟨"d1".toList, "/a".toList, "fsX".toList, "rw".toList⟩]
      0 none none [] sample_world (by decide) (by decide)).2).trans (by decide)⟩

/-! ## Mount-table calls of the single mount and of the batch -/

theorem store_calls_append (a b : List Event) :
    store_calls (a ++ b) = store_calls a ++ store_calls b := by
  simp [store_calls]

theorem store_calls_single (env : Env) (mountflags : Nat) (type args : Option CStr)
    (argv1 argv2 : CStr) :
    store_calls (single_calls env mountflags type args argv1 argv2) = [] := by
  cases h : probed type argv1 <;> simp [single_calls, h, store_calls, Event.isStore]

/-- A single mount whose mount call fails: the diagnostic is all that follows the
call. -/
theorem main_mount_failed (env : Env) (etc_fstab : List fstab) (mountflags : Nat)
    (type args : Option CStr) (argv1 argv2 : CStr) (w : World) (hdev : argv1 ≠ [])
    (hfail : env.mount (single_device argv1) argv2 mountflags (resolved_type env type argv1)
      args < 0) :
    main env etc_fstab false mountflags type args [argv1, argv2] w =
      (Res.ret EXIT_FAILURE,
        std_err
          (cant_mount argv1 argv2
            (env.mount_error (single_device argv1) argv2 mountflags
              (resolved_type env type argv1) args))
          { w with trace := w.trace ++ single_calls env mountflags type args argv1 argv2 }) := by
  rw [main_single env etc_fstab mountflags type args argv1 argv2 w hdev, if_pos hfail]

/-- A single mount with recording off whose mount call does not fail: the line on
standard output is all that follows the call. -/
theorem main_mounted_silently (env : Env) (etc_fstab : List fstab) (mountflags : Nat)
    (type args : Option CStr) (argv1 argv2 : CStr) (w : World) (hdev : argv1 ≠ [])
    (hoff : w.write_mtab = 0)
    (hok : ¬ env.mount (single_device argv1) argv2 mountflags (resolved_type env type argv1)
      args < 0) :
    main env etc_fstab false mountflags type args [argv1, argv2] w =
      (Res.ret EXIT_SUCCESS,
        printf (mounted_line env mountflags argv1 argv2)
          { w with trace := w.trace ++ single_calls env mountflags type args argv1 argv2 }) := by
  have hu := update_mtab_off env argv1 argv2 (resolved_type env type argv1) mountflags
    (printf (mounted_line env mountflags argv1 argv2)
      { w with trace := w.trace ++ single_calls env mountflags type args argv1 argv2 }) hoff
  rw [main_single env etc_fstab mountflags type args argv1 argv2 w hdev, if_neg hok, hu]

/-- With recording off the batch calls no operation of the mount-table store and
leaves the store as it was. -/
theorem mount_all_store_off (env : Env) :
    ∀ (table : List fstab) (w : World), w.write_mtab = 0 →
      store_calls (mount_all env table w).2.trace = store_calls w.trace ∧
      (mount_all env table w).2.mtab = w.mtab ∧
      (mount_all env table w).2.inbuf = w.inbuf ∧
      (mount_all env table w).2.outbuf = w.outbuf := by
  intro table
  induction table with
  | nil => intro w _; exact ⟨rfl, rfl, rfl, rfl⟩
  | cons fs rest ih =>
    intro w hoff
    cases hrp : env.realpath fs.fs_file with
    | none =>
      rw [mount_all_unresolved env fs rest w hrp]
      exact ⟨rfl, rfl, rfl, rfl⟩
    | some mp =>
      cases hs : skipped env fs with
      | true => rw [mount_all_skip env fs rest w mp hrp hs]; exact ih w hoff
      | false =>
        by_cases hm : env.mount (batch_device fs) mp (batch_flags env fs)
            (some fs.fs_vfstype) (some fs.fs_mntops) = 0
        · have hu := update_mtab_off env fs.fs_spec fs.fs_file (some fs.fs_vfstype)
            (batch_flags env fs) { w with trace := w.trace ++ [batch_call env fs] } hoff
          rcases mount_all_mounted env fs rest w mp hrp hs hm with ⟨_, h2⟩ | ⟨h1, _⟩
          · rw [h2, hu]
            have h := ih { w with trace := w.trace ++ [batch_call env fs] } hoff
            refine ⟨?_, h.2.1, h.2.2.1, h.2.2.2⟩
            rw [h.1]
            simp [store_calls_append, store_calls, batch_call, Event.isStore]
          · rw [hu] at h1
            exact absurd h1 (by simp)
        · rw [mount_all_failed env fs rest w mp hrp hs hm]
          refine ⟨?_, rfl, rfl, rfl⟩
          simp [std_err, store_calls_append, store_calls, batch_call, Event.isStore]

/-! ## The claims on recording and on failed calls -/

/-- C11: with recording off (`write_mtab` is 0), `update_mtab` does nothing, whatever
its arguments: it returns and the world, the persisted table in it, is as it was, no
call of the mount-table store is made. A single mount whose mount call does not fail
then returns success, and a batch calls no operation of the store either. -/
theorem update_mtab_noop_when_recording_off :
    (∀ (env : Env) (dev mountpoint : CStr) (fstype : Option CStr) (mountflags : Nat)
      (w : World), w.write_mtab = 0 →
      update_mtab env dev mountpoint fstype mountflags w = (Res.ret (), w)) ∧
    (∀ (env : Env) (etc_fstab : List fstab) (mountflags : Nat) (type args : Option CStr)
      (argv1 argv2 : CStr) (w : World), argv1 ≠ [] → w.write_mtab = 0 →
      0 ≤ env.mount (single_device argv1) argv2 mountflags (resolved_type env type argv1)
        args →
      (main env etc_fstab false mountflags type args [argv1, argv2] w).1 =
        Res.ret EXIT_SUCCESS ∧
      store_calls (main env etc_fstab false mountflags type args [argv1, argv2] w).2.trace =
        store_calls w.trace ∧
      (main env etc_fstab false mountflags type args [argv1, argv2] w).2.mtab = w.mtab ∧
      (main env etc_fstab false mountflags type args [argv1, argv2] w).2.inbuf = w.inbuf ∧
      (main env etc_fstab false mountflags type args [argv1, argv2] w).2.outbuf =
        w.outbuf) ∧
    (∀ (env : Env) (table : List fstab) (w : World), w.write_mtab = 0 →
      store_calls (mount_all env table w).2.trace = store_calls w.trace ∧
      (mount_all env table w).2.mtab = w.mtab) := by
  refine ⟨fun env dev mountpoint fstype mountflags w hoff =>
      update_mtab_off env dev mountpoint fstype mountflags w hoff, ?_, ?_⟩
  · intro env etc_fstab mountflags type args argv1 argv2 w hdev hoff hok
    rw [main_mounted_silently env etc_fstab mountflags type args argv1 argv2 w hdev hoff
      (Int.not_lt.mpr hok)]
    refine ⟨rfl, ?_, rfl, rfl, rfl⟩
    simp [printf, store_calls_append, store_calls_single]
  · intro env table w hoff
    have h := mount_all_store_off env table w hoff
    exact ⟨h.1, h.2.1⟩

/-- C11 at a sample input: `mount -n /dev/c0d1 /mnt` with a succeeding mount call. -/
theorem update_mtab_noop_when_recording_off_witness :
    (main sample_env [] false 0 none none ["/dev/c0d1".toList, "/mnt".toList]
      silent_world).1 = Res.ret EXIT_SUCCESS ∧
    (main sample_env [] false 0 none none ["/dev/c0d1".toList, "/mnt".toList]
      silent_world).2.mtab = silent_world.mtab :=
  have h := update_mtab_noop_when_recording_off.2.1 sample_env [] 0 none none
    "/dev/c0d1".toList "/mnt".toList silent_world (by decide) rfl (by decide)
  ⟨h.1, h.2.2.1⟩

/-- C12: a single mount whose mount call fails returns failure; it has called no
operation of the mount-table store, and the persisted table and the buffers of the
store are as they were. -/
theorem main_failed_mount_leaves_mtab (env : Env) (etc_fstab : List fstab)
    (mountflags : Nat) (type args : Option CStr) (argv1 argv2 : CStr) (w : World)
    (hdev : argv1 ≠ [])
    (hfail : env.mount (single_device argv1) argv2 mountflags (resolved_type env type argv1)
      args < 0) :
    (main env etc_fstab false mountflags type args [argv1, argv2] w).1 =
      Res.ret EXIT_FAILURE ∧
    store_calls (main env etc_fstab false mountflags type args [argv1, argv2] w).2.trace =
      store_calls w.trace ∧
    (main env etc_fstab false mountflags type args [argv1, argv2] w).2.mtab = w.mtab ∧
    (main env etc_fstab false mountflags type args [argv1, argv2] w).2.inbuf = w.inbuf ∧
    (main env etc_fstab false mountflags type args [argv1, argv2] w).2.outbuf = w.outbuf := by
  rw [main_mount_failed env etc_fstab mountflags type args argv1 argv2 w hdev hfail]
  refine ⟨rfl, ?_, rfl, rfl, rfl⟩
  simp [std_err, store_calls_append, store_calls_single]

/-- C12 at a sample input: every mount call fails. -/
theorem main_failed_mount_leaves_mtab_witness :
    (main refusing_env [] false 0 none none ["/dev/c0d1".toList, "/mnt".toList]
      sample_world).1 = Res.ret EXIT_FAILURE ∧
    (main refusing_env [] false 0 none none ["/dev/c0d1".toList, "/mnt".toList]
      sample_world).2.mtab = sample_world.mtab :=
  have h := main_failed_mount_leaves_mtab refusing_env [] 0 none none "/dev/c0d1".toList
    "/mnt".toList sample_world (by decide) (by decide)
  ⟨h.1, h.2.2.1⟩

/-! ## The batch over a table in two parts, and its probes -/

/-- The batch over a table in two parts: either the first part is done with success
and the batch goes on with the second part, or the batch ends in the first part with
the failure status. -/
theorem mount_all_append_cases (env : Env) (post : List fstab) :
    ∀ (pre : List fstab) (w : World),
      (∃ w1, mount_all env pre w = (Res.ret EXIT_SUCCESS, w1) ∧
        mount_all env (pre ++ post) w = mount_all env post w1) ∨
      (exit_status (mount_all env pre w).1 = some EXIT_FAILURE ∧
        mount_all env (pre ++ post) w = mount_all env pre w) := by
  intro pre
  induction pre with
  | nil => intro w; exact Or.inl ⟨w, rfl, rfl⟩
  | cons p ps ih =>
    intro w
    rw [List.cons_append]
    cases hrp : env.realpath p.fs_file with
    | none =>
      rw [mount_all_unresolved env p ps w hrp, mount_all_unresolved env p (ps ++ post) w hrp]
      exact Or.inr ⟨rfl, rfl⟩
    | some mp =>
      cases hs : skipped env p with
      | true =>
        rw [mount_all_skip env p ps w mp hrp hs, mount_all_skip env p (ps ++ post) w mp hrp hs]
        exact ih w
      | false =>
        by_cases hm : env.mount (batch_device p) mp (batch_flags env p)
            (some p.fs_vfstype) (some p.fs_mntops) = 0
        · rcases mount_all_mounted env p ps w mp hrp hs hm with ⟨h1, h2⟩ | ⟨h1, h2⟩
          · rcases mount_all_mounted env p (ps ++ post) w mp hrp hs hm with
              ⟨_, h4⟩ | ⟨h3, _⟩
            · rw [h2, h4]
              exact ih _
            · rw [h1] at h3
              exact absurd h3 (by simp)
          · rcases mount_all_mounted env p (ps ++ post) w mp hrp hs hm with
              ⟨h3, _⟩ | ⟨_, h4⟩
            · rw [h1] at h3
              exact absurd h3 (by simp)
            · rw [h2, h4]
              exact Or.inr ⟨rfl, rfl⟩
        · rw [mount_all_failed env p ps w mp hrp hs hm,
            mount_all_failed env p (ps ++ post) w mp hrp hs hm]
          exact Or.inr ⟨rfl, rfl⟩

/-- The batch never calls `fsversion`. -/
theorem mount_all_probes (env : Env) :
    ∀ (table : List fstab) (w : World),
      probe_calls (mount_all env table w).2.trace = probe_calls w.trace := by
  intro table
  induction table with
  | nil => intro w; rfl
  | cons fs rest ih =>
    intro w
    cases hrp : env.realpath fs.fs_file with
    | none => rw [mount_all_unresolved env fs rest w hrp]; rfl
    | some mp =>
      cases hs : skipped env fs with
      | true => rw [mount_all_skip env fs rest w mp hrp hs]; exact ih w
      | false =>
        by_cases hm : env.mount (batch_device fs) mp (batch_flags env fs)
            (some fs.fs_vfstype) (some fs.fs_mntops) = 0
        · have hc := (update_mtab_cases env fs.fs_spec fs.fs_file fs.fs_vfstype
            (batch_flags env fs) { w with trace := w.trace ++ [batch_call env fs] }).2.2.1
          have hp : probe_calls (w.trace ++ [batch_call env fs]) = probe_calls w.trace := by
            simp [probe_calls_append, probe_calls_cons, probe_calls_nil, batch_call,
              Event.isProbe]
          rcases mount_all_mounted env fs rest w mp hrp hs hm with ⟨_, h2⟩ | ⟨_, h2⟩
          · rw [h2, ih, hc]
            exact hp
          · rw [h2]
            exact hc.trans hp
        · rw [mount_all_failed env fs rest w mp hrp hs hm]
          simp [std_err, probe_calls_append, probe_calls_cons, probe_calls_nil, batch_call,
            Event.isProbe]

/-! ## The claims on the batch -/

/-- C13: for every fstab with an entry whose mount point cannot be made canonical,
whatever the options of that entry, `mount_all` ends with the failure status; its mount
calls are those of entries before that one, so neither that entry nor a later one is
attempted. When the entries before that one are processed with success, `mount_all`
returns `EXIT_FAILURE` at that entry: it has made no further call, and the mount table
is as the earlier entries left it. -/
theorem mount_all_stops_at_unresolved_path (env : Env) (pre post : List fstab)
    (fs : fstab) (w : World) (hpath : env.realpath fs.fs_file = none) :
    exit_status (mount_all env (pre ++ fs :: post) w).1 = some EXIT_FAILURE ∧
    (∃ n, mount_calls (mount_all env (pre ++ fs :: post) w).2.trace =
      mount_calls w.trace ++ ((attempted env pre).take n).map (batch_call env)) ∧
    (∃ m, (mount_all env (pre ++ fs :: post) w).2.mtab =
      w.mtab ++ ((attempted env pre).take m).map (batch_row env)) ∧
    (∀ w1, mount_all env pre w = (Res.ret EXIT_SUCCESS, w1) →
      (mount_all env (pre ++ fs :: post) w).1 = Res.ret EXIT_FAILURE ∧
      (mount_all env (pre ++ fs :: post) w).2.trace = w1.trace ∧
      (mount_all env (pre ++ fs :: post) w).2.mtab = w1.mtab) := by
  have hstop : ∀ w1, mount_all env (fs :: post) w1 =
      (Res.ret EXIT_FAILURE,
        std_err ("Can't mount on ".toList ++ fs.fs_file ++ "\n".toList) w1) :=
    fun w1 => mount_all_unresolved env fs post w1 hpath
  obtain ⟨n, hn, _⟩ := mount_all_calls env pre w
  obtain ⟨m, hm, _⟩ := mount_all_mtab env pre w
  refine ⟨?_, ?_, ?_, ?_⟩
  · rcases mount_all_append_cases env (fs :: post) pre w with ⟨w1, _, h2⟩ | ⟨h1, h2⟩
    · rw [h2, hstop]
      rfl
    · rw [h2]
      exact h1
  · rcases mount_all_append_cases env (fs :: post) pre w with ⟨w1, h1, h2⟩ | ⟨_, h2⟩
    · rw [h1] at hn
      rw [h2, hstop]
      exact ⟨n, hn⟩
    · rw [h2]
      exact ⟨n, hn⟩
  · rcases mount_all_append_cases env (fs :: post) pre w with ⟨w1, h1, h2⟩ | ⟨_, h2⟩
    · rw [h1] at hm
      rw [h2, hstop]
      exact ⟨m, hm⟩
    · rw [h2]
      exact ⟨m, hm⟩
  · intro w1 hpre
    rw [mount_all_append env (fs :: post) pre w w1 hpre, hstop]
    exact ⟨rfl, rfl, rfl⟩

/-- C13 at a sample input: the second of three entries is marked `noauto` and its mount
point has no canonical form. -/
theorem mount_all_stops_at_unresolved_path_witness :
    (mount_all dangling_env
      ([⟨"d1".toList, "/a".toList, "fsX".toList, "rw".toList⟩] ++
        ⟨"d2".toList, "/gone".toList, "fsX".toList, "noauto".toList⟩ ::
          [⟨"d3".toList, "/c".toList, "fsX".toList, "rw".toList⟩])
      sample_world).1 = Res.ret EXIT_FAILURE ∧
    mount_calls (mount_all dangling_env
      ([⟨"d1".toList, "/a".toList, "fsX".toList, "rw".toList⟩] ++
        ⟨"d2".toList, "/gone".toList, "fsX".toList, "noauto".toList⟩ ::
          [⟨"d3".toList, "/c".toList, "fsX".toList, "rw".toList⟩])
      sample_world).2.trace =
      [Event.mount (some "d1".toList) "/a".toList 0 (some "fsX".toList)
        (some "rw".toList)] :=
  have h := (mount_all_stops_at_unresolved_path dangling_env
    [⟨"d1".toList, "/a".toList, "fsX".toList, "rw".toList⟩]
    [⟨"d3".toList, "/c".toList, "fsX".toList, "rw".toList⟩]
    ⟨"d2".toList, "/gone".toList, "fsX".toList, "noauto".toList⟩ sample_world
    (by decide)).2.2.2
    (mount_all dangling_env [⟨"d1".toList, "/a".toList, "fsX".toList, "rw".toList⟩]
      sample_world).2 (by decide)
  ⟨h.1, by rw [h.2.1]; decide⟩

/-- C14: every mount call of `mount_all` is that of an entry it does not skip, in fstab
order, and passes the type and the option string of the entry as they are, and as flags
`MS_RDONLY` when the option string has the token `ro` and no flag otherwise; the batch
never calls `fsversion`. When no entry fails and the store has room, every entry that
is not skipped gets such a call; and when the batch gets through the entries before an
entry that is not skipped and whose mount point has a canonical form, such a call is
made for that entry, right after those of the earlier entries. -/
theorem mount_all_passes_entry_verbatim :
    (∀ (env : Env) (table : List fstab) (w : World),
      (∃ n,
        mount_calls (mount_all env table w).2.trace =
          mount_calls w.trace ++
            ((attempted env table).take n).map
              (fun fs =>
                Event.mount (batch_device fs) ((env.realpath fs.fs_file).getD [])
                  (if "ro".toList ∈ comma_split fs.fs_mntops then env.MS_RDONLY else 0)
                  (some fs.fs_vfstype) (some fs.fs_mntops)) ∧
        ((mount_all env table w).1 = Res.ret EXIT_SUCCESS →
          (attempted env table).length ≤ n)) ∧
      probe_calls (mount_all env table w).2.trace = probe_calls w.trace) ∧
    (∀ (env : Env) (table : List fstab) (w : World),
      (∀ fs ∈ table, entry_passes env fs = true) →
      store_fits w (attempted env table).length = true →
      (mount_all env table w).1 = Res.ret EXIT_SUCCESS ∧
      mount_calls (mount_all env table w).2.trace =
        mount_calls w.trace ++
          (attempted env table).map
            (fun fs =>
              Event.mount (batch_device fs) ((env.realpath fs.fs_file).getD [])
                (if "ro".toList ∈ comma_split fs.fs_mntops then env.MS_RDONLY else 0)
                (some fs.fs_vfstype) (some fs.fs_mntops))) ∧
    (∀ (env : Env) (pre post : List fstab) (fs : fstab) (w : World) (mountpoint : CStr),
      (∀ g ∈ pre, entry_passes env g = true) →
      store_fits w (attempted env pre).length = true →
      env.realpath fs.fs_file = some mountpoint →
      skipped env fs = false →
      ∃ n,
        mount_calls (mount_all env (pre ++ fs :: post) w).2.trace =
          mount_calls w.trace ++
            (attempted env pre).map
              (fun g =>
                Event.mount (batch_device g) ((env.realpath g.fs_file).getD [])
                  (if "ro".toList ∈ comma_split g.fs_mntops then env.MS_RDONLY else 0)
                  (some g.fs_vfstype) (some g.fs_mntops)) ++
            Event.mount (batch_device fs) mountpoint
                (if "ro".toList ∈ comma_split fs.fs_mntops then env.MS_RDONLY else 0)
                (some fs.fs_vfstype) (some fs.fs_mntops) ::
              ((attempted env post).take n).map
                (fun g =>
                  Event.mount (batch_device g) ((env.realpath g.fs_file).getD [])
                    (if "ro".toList ∈ comma_split g.fs_mntops then env.MS_RDONLY else 0)
                    (some g.fs_vfstype) (some g.fs_mntops))) := by
  refine ⟨?_, ?_, ?_⟩
  · intro env table w
    exact ⟨mount_all_calls env table w, mount_all_probes env table w⟩
  · intro env table w hall hfit
    obtain ⟨h1, h2, _, _⟩ := mount_all_all_pass env table w hall hfit
    exact ⟨h1, h2⟩
  · intro env pre post fs w mountpoint hpre hfit hpath helig
    obtain ⟨n, hn⟩ := mount_all_reached env pre post fs w mountpoint hpre hfit hpath helig
    have hb : batch_call env fs =
        Event.mount (batch_device fs) mountpoint
          (if "ro".toList ∈ comma_split fs.fs_mntops then env.MS_RDONLY else 0)
          (some fs.fs_vfstype) (some fs.fs_mntops) := by
      unfold batch_call batch_flags
      rw [hpath]
      rfl
    rw [hb] at hn
    exact ⟨n, hn⟩

/-- C14 at a sample input: of the three entries of the scenario the first two are
skipped, and the call for the third passes its type `fsX` and its option string `ro`
as they are, with the flag `MS_RDONLY`. -/
theorem mount_all_passes_entry_verbatim_witness :
    mount_calls (mount_all sample_env scenario_table sample_world).2.trace =
      [Event.mount (some "d3".toList) "/b".toList sample_env.MS_RDONLY
        (some "fsX".toList) (some "ro".toList)] ∧
    probe_calls (mount_all sample_env scenario_table sample_world).2.trace = [] :=
  ⟨((mount_all_passes_entry_verbatim.2.1 sample_env scenario_table sample_world
      (by decide) (by decide)).2).trans (by decide),
    ((mount_all_passes_entry_verbatim.1 sample_env scenario_table sample_world).2).trans
      (by decide)⟩

/-! ## The listing -/

theorem list_loop_eq :
    ∀ (es : List MtabEntry) (fuel : Nat) (w : World), w.inbuf = es → es.length < fuel →
      list_loop fuel w =
        (Res.ret (), { w with inbuf := [], stdout := w.stdout ++ es.map list_line }) := by
  intro es
  induction es with
  | nil =>
    intro fuel w hw hf
    obtain ⟨n, rfl⟩ : ∃ n, fuel = n + 1 := ⟨fuel - 1, by simp at hf; omega⟩
    obtain ⟨wm, mt, rd, wr, cap, ib, ob, tr, so, se⟩ := w
    simp only at hw
    subst hw
    simp [list_loop, get_mtab_entry]
  | cons e es ih =>
    intro fuel w hw hf
    obtain ⟨n, rfl⟩ : ∃ n, fuel = n + 1 := ⟨fuel - 1, by simp at hf; omega⟩
    obtain ⟨wm, mt, rd, wr, cap, ib, ob, tr, so, se⟩ := w
    simp only at hw
    subst hw
    simp only [List.length_cons] at hf
    simp only [list_loop, get_mtab_entry]
    rw [ih n _ rfl (by omega)]
    simp [printf, list_line]

/-- The listing of a table that loads, in closed form. -/
theorem list_eq (w : World) (hload : w.readable = true) :
    list w =
      (Res.exit 0,
        { w with inbuf := [], outbuf := [], trace := w.trace ++ [Event.load_mtab],
                 stdout := w.stdout ++ w.mtab.map list_line }) := by
  obtain ⟨wm, mt, rd, wr, cap, ib, ob, tr, so, se⟩ := w
  simp only at hload
  subst hload
  simp only [list, load_mtab, if_true]
  rw [if_neg (by decide), list_loop_eq mt _ _ rfl (Nat.lt_succ_self _)]

/-! ## The claims on the listing and on the recorded rows -/

/-- C15: for a table that loads, `list` prints one line for each entry, in table order,
with `write` as access when the mode of the entry is `rw` and `only` otherwise, and
ends the process with status 0; the load is its only call, so nothing is staged or
committed, and the persisted table is as it was; a second listing prints the same
lines again. -/
theorem list_renders_table (w : World) (hload : w.readable = true) :
    (list w).1 = Res.exit 0 ∧
    (list w).2.stdout =
      w.stdout ++
        w.mtab.map (fun e =>
          e.special ++ " is read-".toList ++
            (if e.rw_flag = "rw".toList then "write".toList else "only".toList) ++
            " mounted on ".toList ++ e.mounted_on ++ " (type ".toList ++ e.version ++
            ")\n".toList) ∧
    (list w).2.trace = w.trace ++ [Event.load_mtab] ∧
    (list w).2.mtab = w.mtab ∧
    (list (list w).2).2.stdout =
      (list w).2.stdout ++
        w.mtab.map (fun e =>
          e.special ++ " is read-".toList ++
            (if e.rw_flag = "rw".toList then "write".toList else "only".toList) ++
            " mounted on ".toList ++ e.mounted_on ++ " (type ".toList ++ e.version ++
            ")\n".toList) := by
  have h2 : (list w).2.readable = true := by rw [list_eq w hload]; exact hload
  rw [list_eq (list w).2 h2, list_eq w hload]
  exact ⟨rfl, rfl, rfl, rfl, rfl⟩

/-- C15 at the sample world: one line, for the root file system. -/
theorem list_renders_table_witness :
    (list sample_world).2.stdout =
      ["/dev/c0d0p0 is read-write mounted on / (type MFSv3)\n".toList] ∧
    (list (list sample_world).2).2.stdout =
      ["/dev/c0d0p0 is read-write mounted on / (type MFSv3)\n".toList,
       "/dev/c0d0p0 is read-write mounted on / (type MFSv3)\n".toList] :=
  have h := list_renders_table sample_world rfl
  ⟨h.2.1.trans (by decide), h.2.2.2.2.trans (by decide)⟩

/-- C16: `update_mtab` does not look for the mount point in the table: when the table
has a row for the mount point `p` and a further mount on `p` is recorded, the committed
table has one more row for `p` than before, so two at least, and its mount points are
not distinct. -/
theorem update_mtab_keeps_duplicates (env : Env) (dev p t : CStr) (mountflags : Nat)
    (w : World) (hrec : w.write_mtab ≠ 0) (hload : w.readable = true)
    (hroom : w.mtab.length + 1 ≤ w.capacity) (hcommit : w.writable = true)
    (hrow : ∃ e ∈ w.mtab, e.mounted_on = p) :
    (update_mtab env dev p (some t) mountflags w).1 = Res.ret () ∧
    ((update_mtab env dev p (some t) mountflags w).2.mtab.filter
        (fun e => decide (e.mounted_on = p))).length =
      (w.mtab.filter (fun e => decide (e.mounted_on = p))).length + 1 ∧
    2 ≤ ((update_mtab env dev p (some t) mountflags w).2.mtab.filter
        (fun e => decide (e.mounted_on = p))).length ∧
    ¬ ((update_mtab env dev p (some t) mountflags w).2.mtab.map
        MtabEntry.mounted_on).Nodup := by
  rw [update_mtab_eq env dev p t mountflags w hrec hload, if_pos hroom]
  show _ ∧ ((if w.writable = true then w.mtab ++ [new_row env dev p t mountflags]
      else w.mtab).filter _).length = _ ∧
    2 ≤ ((if w.writable = true then w.mtab ++ [new_row env dev p t mountflags]
      else w.mtab).filter _).length ∧
    ¬ ((if w.writable = true then w.mtab ++ [new_row env dev p t mountflags]
      else w.mtab).map _).Nodup
  rw [if_pos hcommit]
  obtain ⟨e, he, hp⟩ := hrow
  have hpos : 0 < (w.mtab.filter (fun e => decide (e.mounted_on = p))).length := by
    apply List.length_pos_of_mem (a := e)
    rw [List.mem_filter]
    exact ⟨he, decide_eq_true hp⟩
  have hlen : ((w.mtab ++ [new_row env dev p t mountflags]).filter
      (fun e => decide (e.mounted_on = p))).length =
      (w.mtab.filter (fun e => decide (e.mounted_on = p))).length + 1 := by
    simp [List.filter_append, new_row]
  refine ⟨rfl, hlen, by omega, ?_⟩
  intro hnd
  rw [List.map_append, List.nodup_append] at hnd
  have hdis := hnd.2.2
  have h1 : p ∈ w.mtab.map MtabEntry.mounted_on := by
    rw [List.mem_map]
    exact ⟨e, he, hp⟩
  have h2 : p ∈ [new_row env dev p t mountflags].map MtabEntry.mounted_on := by
    simp [new_row]
  exact List.disjoint_left.mp hdis h1 h2

/-- C16 at a sample input: a second mount on `/` gives two rows for `/`. -/
theorem update_mtab_keeps_duplicates_witness :
    ((update_mtab sample_env "/dev/c0d1".toList "/".toList (some "mfs".toList) 0
        sample_world).2.mtab.filter (fun e => decide (e.mounted_on = "/".toList))).length =
      (sample_world.mtab.filter (fun e => decide (e.mounted_on = "/".toList))).length + 1 :=
  (update_mtab_keeps_duplicates sample_env "/dev/c0d1".toList "/".toList "mfs".toList 0
    sample_world (by decide) rfl (by decide) rfl
    ⟨⟨"/dev/c0d0p0".toList, "/".toList, "MFSv3".toList, "rw".toList⟩, by decide, rfl⟩).2.1

/-- C17, where the code breaks it: a single mount without `-t` gives `update_mtab` an
absent type when the device is `none`, and when the probe reports a tag that `main`
does not know; with recording on and a table that loads, `update_mtab` then compares
that absent type with `mfs`, which C leaves undefined. -/
theorem main_passes_null_type_to_strcmp :
    (main sample_env [] false 0 none none ["none".toList, "/proc".toList]
      sample_world).1 = Res.undef ∧
    mount_calls (main sample_env [] false 0 none none ["none".toList, "/proc".toList]
      sample_world).2.trace = [Event.mount none "/proc".toList 0 none none] ∧
    (main unknown_probe_env [] false 0 none none ["/dev/c0d1".toList, "/mnt".toList]
      sample_world).1 = Res.undef ∧
    mount_calls (main unknown_probe_env [] false 0 none none
      ["/dev/c0d1".toList, "/mnt".toList] sample_world).2.trace =
      [Event.mount (some "/dev/c0d1".toList) "/mnt".toList 0 none none] := by
  decide

/-- C18: when the entries before an entry are processed with success, that entry is not
skipped, its mount call succeeds and its row is recorded, the mount call has got the
canonical mount point, and an absent device if the device of the entry is `none`, while
the recorded row has the device and the mount point of the entry as they are in the
fstab; so the recorded mount point is the mounted one exactly when the mount point in
the fstab is canonical. -/
theorem mount_all_records_entry_verbatim (env : Env) (pre post : List fstab) (fs : fstab)
    (w w1 : World) (mountpoint : CStr)
    (hpre : mount_all env pre w = (Res.ret EXIT_SUCCESS, w1))
    (hpath : env.realpath fs.fs_file = some mountpoint)
    (helig : skipped env fs = false)
    (hok : env.mount (batch_device fs) mountpoint (batch_flags env fs)
      (some fs.fs_vfstype) (some fs.fs_mntops) = 0)
    (hrec : w1.write_mtab ≠ 0) (hload : w1.readable = true)
    (hroom : w1.mtab.length + 1 ≤ w1.capacity) (hcommit : w1.writable = true) :
    ∃ w3, mount_all env (pre ++ fs :: post) w = mount_all env post w3 ∧
      mount_calls w3.trace =
        mount_calls w1.trace ++
          [Event.mount (if fs.fs_spec = "none".toList then none else some fs.fs_spec)
            mountpoint (batch_flags env fs) (some fs.fs_vfstype) (some fs.fs_mntops)] ∧
      ∃ row, w3.mtab = w1.mtab ++ [row] ∧
        row.special = fs.fs_spec ∧ row.mounted_on = fs.fs_file ∧
        (row.mounted_on = mountpoint ↔ fs.fs_file = mountpoint) := by
  have hu := update_mtab_eq env fs.fs_spec fs.fs_file fs.fs_vfstype (batch_flags env fs)
    { w1 with trace := w1.trace ++ [batch_call env fs] } hrec hload
  rw [if_pos hroom] at hu
  have hcalls := (update_mtab_cases env fs.fs_spec fs.fs_file fs.fs_vfstype
    (batch_flags env fs) { w1 with trace := w1.trace ++ [batch_call env fs] }).2.1
  rw [mount_all_append env (fs :: post) pre w w1 hpre]
  rcases mount_all_mounted env fs post w1 mountpoint hpath helig hok with ⟨_, h2⟩ | ⟨h1, _⟩
  · refine ⟨_, h2, ?_, new_row env fs.fs_spec fs.fs_file fs.fs_vfstype (batch_flags env fs),
      ?_, rfl, rfl, Iff.rfl⟩
    · rw [hcalls]
      simp [mount_calls_append, mount_calls_cons, mount_calls_nil, batch_call, batch_device,
        Event.isMount, hpath]
    · rw [hu]
      simp [hcommit]
  · rw [hu] at h1
    exact absurd h1 (by simp)

/-- C18 at a sample input: the entry `(none, /mnt/../b, procfs, rw)`, whose mount point
has the canonical form `/b`. -/
theorem mount_all_records_entry_verbatim_witness :
    ∃ row,
      (mount_all linking_env
        [⟨"none".toList, "/mnt/../b".toList, "procfs".toList, "rw".toList⟩]
        sample_world).2.mtab = sample_world.mtab ++ [row] ∧
      row.special = "none".toList ∧ row.mounted_on = "/mnt/../b".toList ∧
      mount_calls (mount_all linking_env
        [⟨"none".toList, "/mnt/../b".toList, "procfs".toList, "rw".toList⟩]
        sample_world).2.trace =
        [Event.mount none "/b".toList 0 (some "procfs".toList) (some "rw".toList)] :=
  match mount_all_records_entry_verbatim linking_env [] []
      ⟨"none".toList, "/mnt/../b".toList, "procfs".toList, "rw".toList⟩
      sample_world sample_world "/b".toList rfl (by decide) (by decide) (by decide)
      (by decide) rfl (by decide) rfl with
  | ⟨_, h1, h2, row, h3, h4, h5, _⟩ =>
    ⟨row, (congrArg (fun r => r.2.mtab) h1).trans h3, h4, h5,
      (congrArg (fun r => mount_calls r.2.trace) h1).trans (h2.trans (by decide))⟩

end Mount
